import Mathlib

/-!
# Scanline iterator over a run-length encoded image, and command-line parsing

Shallow embedding of
* `src/Logic/RLEImage/RLEImageScanlineConstIterator.h`
  (`ImageScanlineConstIterator` specialised for `RLEImage`), and
* the function `parse` of `src/GUI/Qt/main.cxx`.

Conventions of the embedding.
* The fields `m_Index`, `m_BeginIndex`, `m_EndIndex`, `rlLine`, `realIndex` and
  `segmentRemainder` are declared in the base iterator (`RLEImageRegionConstIterator.h`), which
  is not part of the sources. Index values and the run cursor are taken to be signed index
  values (`IndexValueType`) and are embedded as `Int`. Line lengths are far below the range of
  the machine types, so no wrap-around is modelled.
* A run is `std::pair<RunLengthCounterType, TPixel>`: `first` is the (unsigned) count,
  `second` the pixel. A line is a `std::vector` of runs, embedded as a `List`.
* `(*rlLine)[i]` on a `std::vector` is only defined for `0 ≤ i < size()`. An access outside of
  that range is undefined behaviour; the embedding returns `none` for it, and every operation
  that performs such an access returns `none`.
* `itkAssertInDebugAndIgnoreInReleaseMacro` is ignored by the operations (release build); the
  asserted conditions are kept as separate Boolean functions.
-/

namespace itk

/-- One run of a line, `std::pair<RunLengthCounterType, TPixel>`: `(count, value)`. -/
abbrev RLSegment (α : Type) := Nat × α

/-- A run-length encoded scanline, `std::vector<RLSegment>`. -/
abbrev RLLine (α : Type) := List (RLSegment α)

/-- A three-dimensional index (`itk::Index<3>`); axis 0 is the compressed axis. -/
structure IndexType where
  x0 : Int
  x1 : Int
  x2 : Int
  deriving DecidableEq, Repr

/-- State of `ImageScanlineConstIterator<RLEImage<TPixel, RunLengthCounterType>>`:
the positional fields inherited from the region iterator and the run cursor.
`rlLine` is the line the C++ pointer `rlLine` points to. -/
structure ImageScanlineConstIterator (α : Type) where
  m_Index : IndexType
  m_BeginIndex : IndexType
  m_EndIndex : IndexType
  rlLine : RLLine α
  realIndex : Int
  segmentRemainder : Int
  deriving DecidableEq, Repr

/-- The access `line[i]` of a `std::vector`: defined only for `0 ≤ i < line.size()`. -/
def runAt {α : Type} (line : RLLine α) (i : Int) : Option (RLSegment α) :=
  if 0 ≤ i then line.get? i.toNat else none

namespace ImageScanlineConstIterator

variable {α : Type}

/-- Method `GoToBeginOfLine`:
`m_Index[0] = m_BeginIndex[0]; realIndex = 0; segmentRemainder = (*rlLine)[realIndex].first`. -/
def GoToBeginOfLine (s : ImageScanlineConstIterator α) : Option (ImageScanlineConstIterator α) :=
  let s1 := { s with m_Index := { s.m_Index with x0 := s.m_BeginIndex.x0 } }
  let s2 := { s1 with realIndex := 0 }
  match runAt s2.rlLine s2.realIndex with
  | none => none
  | some r => some { s2 with segmentRemainder := (r.1 : Int) }

/-- Method `GoToEndOfLine`:
`m_Index[0] = m_EndIndex[0]; realIndex = rlLine->size() - 1; segmentRemainder = 0`. -/
def GoToEndOfLine (s : ImageScanlineConstIterator α) : ImageScanlineConstIterator α :=
  let s1 := { s with m_Index := { s.m_Index with x0 := s.m_EndIndex.x0 } }
  let s2 := { s1 with realIndex := (s1.rlLine.length : Int) - 1 }
  { s2 with segmentRemainder := 0 }

/-- Method `IsAtEndOfLine`: `m_Index[0] == m_EndIndex[0]`. -/
def IsAtEndOfLine (s : ImageScanlineConstIterator α) : Bool :=
  decide (s.m_Index.x0 = s.m_EndIndex.x0)

/-- The condition asserted (debug builds only) at the head of `operator++`. -/
def incrementAssertion (s : ImageScanlineConstIterator α) : Bool :=
  !s.IsAtEndOfLine

/-- The condition asserted (debug builds only) at the head of `operator--`. -/
def decrementAssertion (s : ImageScanlineConstIterator α) : Bool :=
  !s.IsAtEndOfLine

/-- Prefix `operator++` (release build):
`m_Index[0]++; segmentRemainder--; if (segmentRemainder > 0) return;`
`realIndex++; segmentRemainder = (*rlLine)[realIndex].first`. -/
def operatorInc (s : ImageScanlineConstIterator α) : Option (ImageScanlineConstIterator α) :=
  let s1 := { s with m_Index := { s.m_Index with x0 := s.m_Index.x0 + 1 } }
  let s2 := { s1 with segmentRemainder := s1.segmentRemainder - 1 }
  if s2.segmentRemainder > 0 then some s2
  else
    let s3 := { s2 with realIndex := s2.realIndex + 1 }
    match runAt s3.rlLine s3.realIndex with
    | none => none
    | some r => some { s3 with segmentRemainder := (r.1 : Int) }

/-- Prefix `operator--` (release build):
`m_Index[0]--; segmentRemainder++; if (segmentRemainder <= (*rlLine)[realIndex].first) return;`
`realIndex--; segmentRemainder = 1`. -/
def operatorDec (s : ImageScanlineConstIterator α) : Option (ImageScanlineConstIterator α) :=
  let s1 := { s with m_Index := { s.m_Index with x0 := s.m_Index.x0 - 1 } }
  let s2 := { s1 with segmentRemainder := s1.segmentRemainder + 1 }
  match runAt s2.rlLine s2.realIndex with
  | none => none
  | some r =>
    if s2.segmentRemainder ≤ (r.1 : Int) then some s2
    else
      let s3 := { s2 with realIndex := s2.realIndex - 1 }
      some { s3 with segmentRemainder := 1 }

/-- The result of `n` successive applications of `operator++`. -/
def operatorIncN : Nat → ImageScanlineConstIterator α → Option (ImageScanlineConstIterator α)
  | 0, s => some s
  | n + 1, s => (operatorIncN n s).bind operatorInc

/-- The result of `n` successive applications of `operator--`. -/
def operatorDecN : Nat → ImageScanlineConstIterator α → Option (ImageScanlineConstIterator α)
  | 0, s => some s
  | n + 1, s => (operatorDecN n s).bind operatorDec

end ImageScanlineConstIterator

/-! ## Reference notions of the specification -/

/-- Line length: the sum of the counts of all runs of a line. -/
def lineLength {α : Type} : RLLine α → Nat
  | [] => 0
  | r :: rest => r.1 + lineLength rest

/-- Number of voxels covered by the first `n` runs of a line. -/
def countsBefore {α : Type} : RLLine α → Nat → Nat
  | [], _ => 0
  | _ :: _, 0 => 0
  | r :: rest, n + 1 => r.1 + countsBefore rest n

/-- The dense (decompressed) line: every run `(count, value)` written out `count` times. -/
def decompress {α : Type} : RLLine α → List α
  | [] => []
  | r :: rest => List.replicate r.1 r.2 ++ decompress rest

/-- Modelled from the spec: `locate(offset)` of a run-length line (section 4.1), which is not
part of the sources: the index of the run containing `offset`, and the number of voxels from
`offset` (inclusive) to the end of that run; `none` when `offset` is not inside the line. -/
def locate {α : Type} : RLLine α → Nat → Option (Nat × Nat)
  | [], _ => none
  | r :: rest, offset =>
    if offset < r.1 then some (0, r.1 - offset)
    else (locate rest (offset - r.1)).map (fun p => (p.1 + 1, p.2))

/-- The run cursor `locate` yields, as a pair of index values. -/
def locateCursor {α : Type} (line : RLLine α) (offset : Nat) : Option (Int × Int) :=
  (locate line offset).map (fun p => ((p.1 : Int), (p.2 : Int)))

/-- Modelled from the spec: dereference (section 4.3), `rlLine[realIndex].value`; the accessor
itself belongs to the base iterator, which is not part of the sources. -/
def ImageScanlineConstIterator.Get {α : Type} (s : ImageScanlineConstIterator α) : Option α :=
  (runAt s.rlLine s.realIndex).map Prod.snd

/-- Validity of a line (section 3): no run has count zero. -/
def ValidLine {α : Type} (line : RLLine α) : Prop :=
  ∀ r ∈ line, 1 ≤ r.1

instance {α : Type} (line : RLLine α) : Decidable (ValidLine line) := by
  unfold ValidLine; infer_instance

/-- Offset in the line of the voxel the run cursor `(realIndex, segmentRemainder)` stands on:
the end of run `realIndex` minus the remainder. -/
def cursorOffset {α : Type} (s : ImageScanlineConstIterator α) : Int :=
  (countsBefore s.rlLine (s.realIndex.toNat + 1) : Int) - s.segmentRemainder

/-- The interior predicate of the state machine (section 4.3):
`realIndex` names a run and `1 ≤ segmentRemainder ≤ rlLine[realIndex].count`. -/
def Interior {α : Type} (s : ImageScanlineConstIterator α) : Prop :=
  ∃ r, runAt s.rlLine s.realIndex = some r ∧ 1 ≤ s.segmentRemainder ∧ s.segmentRemainder ≤ (r.1 : Int)

/-- States reachable from `GoToBeginOfLine` on the iterator `s0` by `operator++` while the voxel
stepped onto is still inside the line, and by `operator--` while the cursor is not on the first
voxel of the line. -/
inductive InteriorReachable {α : Type} (s0 : ImageScanlineConstIterator α) :
    ImageScanlineConstIterator α → Prop
  | start {s : ImageScanlineConstIterator α} :
      s0.GoToBeginOfLine = some s → InteriorReachable s0 s
  | incr {s t : ImageScanlineConstIterator α} :
      InteriorReachable s0 s → cursorOffset s + 1 < (lineLength s.rlLine : Int) →
      s.operatorInc = some t → InteriorReachable s0 t
  | decr {s t : ImageScanlineConstIterator α} :
      InteriorReachable s0 s → 0 < cursorOffset s →
      s.operatorDec = some t → InteriorReachable s0 t

/-- States reachable from the iterator `s0` by legal calls: `operator++` when the iterator is
not at end-of-line, `operator--` when it is not at begin-of-line (`m_Index[0] != b0`), and
`GoToEndOfLine`. -/
inductive LegalReachable {α : Type} (s0 : ImageScanlineConstIterator α) :
    ImageScanlineConstIterator α → Prop
  | start : LegalReachable s0 s0
  | incr {s t : ImageScanlineConstIterator α} :
      LegalReachable s0 s → s.IsAtEndOfLine = false →
      s.operatorInc = some t → LegalReachable s0 t
  | decr {s t : ImageScanlineConstIterator α} :
      LegalReachable s0 s → s.m_Index.x0 ≠ s.m_BeginIndex.x0 →
      s.operatorDec = some t → LegalReachable s0 t
  | toEnd {s : ImageScanlineConstIterator α} :
      LegalReachable s0 s → LegalReachable s0 s.GoToEndOfLine

/-- The line `[(3,A),(2,B)]` of the end-to-end scenarios 1 to 3. -/
def lineAAABB : RLLine Char := [(3, 'A'), (2, 'B')]

/-- The line `[(2,A),(2,B)]` of the end-to-end scenario 6. -/
def lineAABB : RLLine Char := [(2, 'A'), (2, 'B')]

/-- An iterator over a single line with axis-0 region `[b0, e0)`, standing at offset `i0` with
run cursor `(ri, sr)`. -/
def lineIterator {α : Type} (line : RLLine α) (b0 e0 i0 ri sr : Int) :
    ImageScanlineConstIterator α :=
  { m_Index := ⟨i0, 0, 0⟩, m_BeginIndex := ⟨b0, 0, 0⟩, m_EndIndex := ⟨e0, 1, 1⟩,
    rlLine := line, realIndex := ri, segmentRemainder := sr }

/-! ## Line stepping -/

/-- Modelled from the spec: the RLE image (sections 3 and 4.2) as far as the iterator uses it,
`getLine(i1, i2)`, the line stored for the slower axes `(i1, i2)`. The container
(`RLEImage.h`) is not part of the sources. -/
structure RLEImage (α : Type) where
  getLine : Int → Int → RLLine α

/-- Modelled from the spec: `Increment()` of the base region iterator
(`RLEImageRegionConstIterator.h`, not part of the sources), as section 4.3 describes it under
`NextLine`: increment `m_Index[1]`; on overflow past `e1` reset it to `b1` and increment
`m_Index[2]`; if `m_Index[2]` reaches `e2` the iterator is the end-of-region sentinel; otherwise
re-resolve `rlLine` for the new `(i1, i2)`, with `m_Index[0] = b0` and the run cursor
`locate(b0)` of that line. The result is `none` when `b0` is not an offset of the new line. -/
def ImageScanlineConstIterator.Increment {α : Type} (image : RLEImage α)
    (s : ImageScanlineConstIterator α) : Option (ImageScanlineConstIterator α) :=
  let i1 := s.m_Index.x1 + 1
  let wrap : Bool := decide (s.m_EndIndex.x1 ≤ i1)
  let j1 := if wrap then s.m_BeginIndex.x1 else i1
  let j2 := if wrap then s.m_Index.x2 + 1 else s.m_Index.x2
  let s1 := { s with m_Index := ⟨s.m_BeginIndex.x0, j1, j2⟩ }
  if s.m_EndIndex.x2 ≤ j2 then some s1
  else
    let line := image.getLine j1 j2
    match locateCursor line s.m_BeginIndex.x0.toNat with
    | none => none
    | some c => some { s1 with rlLine := line, realIndex := c.1, segmentRemainder := c.2 }

/-- Method `NextLine`: `this->Increment()`. -/
def ImageScanlineConstIterator.NextLine {α : Type} (image : RLEImage α)
    (s : ImageScanlineConstIterator α) : Option (ImageScanlineConstIterator α) :=
  s.Increment image

/-- Modelled from the spec: the end-of-region sentinel (section 4.3), the state in which the
slowest axis is exhausted, `m_Index[2]` having reached `e2`. -/
def ImageScanlineConstIterator.IsAtEndOfRegion {α : Type}
    (s : ImageScanlineConstIterator α) : Bool :=
  decide (s.m_EndIndex.x2 ≤ s.m_Index.x2)

/-- The image of the end-to-end scenario 5: line `(0,0)` is `[(2,A),(2,B)]`, every other line is
`[(4,C)]`. -/
def imageScenario5 : RLEImage Char :=
  { getLine := fun i1 i2 => if i1 = 0 ∧ i2 = 0 then lineAABB else [(4, 'C')] }

/-- An iterator over `imageScenario5` with region `[b0, 4) x [0, 2) x [0, 2)` standing at
`(i0, i1, i2)` with run cursor `(ri, sr)`. -/
def scenario5Iterator (b0 i0 i1 i2 ri sr : Int) : ImageScanlineConstIterator Char :=
  { m_Index := ⟨i0, i1, i2⟩, m_BeginIndex := ⟨b0, 0, 0⟩, m_EndIndex := ⟨4, 2, 2⟩,
    rlLine := imageScenario5.getLine i1 i2, realIndex := ri, segmentRemainder := sr }

end itk

/-! ## Command-line parsing (`src/GUI/Qt/main.cxx`) -/

/-- The result object of the command-line tokenizer, `CommandLineArgumentParseResult`, as far as
`parse` queries it. The tokenizer (`CommandLineArgumentParser`) is not part of the sources; the
result object is an input of the embedding. -/
structure CommandLineArgumentParseResult where
  IsOptionPresent : String → Bool
  GetOptionParameter : String → Int → String
  GetNumberOfOptionParameters : String → Int

/-- The structure `CommandLineRequest` of `main.cxx`. `D` stands for the type `double` of
`xZoomFactor`; the embedding does not compute with it. -/
structure CommandLineRequest (D : Type) where
  fnMain : String
  fnOverlay : List String
  fnSegmentation : String
  fnLabelDesc : String
  fnWorkspace : String
  xZoomFactor : D
  flagDebugEvents : Bool
  flagNoFork : Bool
  flagConsole : Bool
  xTestId : String
  fnTestDir : String
  deriving DecidableEq, Repr

/-- The default constructor of `CommandLineRequest`: the flags are false, the zoom factor is
`0.0` (given as `zero`), and the strings and the overlay list are empty. -/
def CommandLineRequest.default {D : Type} (zero : D) : CommandLineRequest D :=
  { fnMain := "", fnOverlay := [], fnSegmentation := "", fnLabelDesc := "", fnWorkspace := "",
    xZoomFactor := zero, flagDebugEvents := false, flagNoFork := false, flagConsole := false,
    xTestId := "", fnTestDir := "" }

/-- Inputs of `parse` that come from outside of `main.cxx`: whether `SNAP_DEBUG_EVENTS` is
defined, the C library function `atof`, whether `TryParseCommandLine` accepted the command line,
the parse result and the index `iTrailing` of the first trailing argument it delivered, and
`argc`, `argv`. -/
structure ParseInput (D : Type) where
  debugEventsCompiled : Bool
  atof : String → D
  tryParseOk : Bool
  parseResult : CommandLineArgumentParseResult
  iTrailing : Int
  argc : Int
  argv : Int → String

/-- The part of `parse` after the image and workspace options (lines 408 to 432): zoom, forking
behaviour, testing; it always ends in `return 0`. The message printed for a zoom factor `<= 0.0`
is output only and changes neither the request nor the return value. -/
def parseTail {D : Type} (inp : ParseInput D) (argdata : CommandLineRequest D) :
    Int × CommandLineRequest D :=
  let pr := inp.parseResult
  let a1 :=
    if pr.IsOptionPresent "--zoom" then
      { argdata with xZoomFactor := inp.atof (pr.GetOptionParameter "--zoom" 0) }
    else argdata
  let a2 := { a1 with flagConsole := pr.IsOptionPresent "--console" }
  let a3 := { a2 with flagNoFork := pr.IsOptionPresent "--no-fork" }
  let a4 :=
    if pr.IsOptionPresent "--test" then
      let b := { a3 with xTestId := pr.GetOptionParameter "--test" 0 }
      if pr.IsOptionPresent "--testdir" then
        { b with fnTestDir := pr.GetOptionParameter "--testdir" 0 }
      else { b with fnTestDir := "." }
    else a3
  (0, a4)

/-- The function `parse` of `main.cxx`: the return code and the request structure it leaves in
`argdata` (passed by reference). Messages written to `cout` and `cerr` are not modelled. -/
def parse {D : Type} (inp : ParseInput D) (argdata : CommandLineRequest D) :
    Int × CommandLineRequest D :=
  let pr := inp.parseResult
  if !inp.tryParseOk then (-1, argdata)
  else if pr.IsOptionPresent "--help" then (1, argdata)
  else
    let a1 :=
      if pr.IsOptionPresent "--debug-events" && inp.debugEventsCompiled then
        { argdata with flagDebugEvents := true }
      else argdata
    if pr.IsOptionPresent "--workspace" then
      if pr.IsOptionPresent "--grey" || pr.IsOptionPresent "--overlay"
          || pr.IsOptionPresent "--labels" || pr.IsOptionPresent "--segmentation" then
        (-1, a1)
      else
        parseTail inp { a1 with fnWorkspace := pr.GetOptionParameter "--workspace" 0 }
    else
      let have_main : Bool :=
        pr.IsOptionPresent "--grey" || decide (inp.iTrailing < inp.argc)
      let a2 :=
        if pr.IsOptionPresent "--grey" then
          { a1 with fnMain := pr.GetOptionParameter "--grey" 0 }
        else if inp.iTrailing < inp.argc then
          { a1 with fnMain := inp.argv inp.iTrailing }
        else a1
      if !have_main && pr.IsOptionPresent "--segmentation" then (-1, a2)
      else if !have_main && pr.IsOptionPresent "--overlay" then (-1, a2)
      else
        let a3 :=
          if have_main then
            let b :=
              if pr.IsOptionPresent "--segmentation" then
                { a2 with fnSegmentation := pr.GetOptionParameter "--segmentation" 0 }
              else a2
            if pr.IsOptionPresent "--overlay" then
              let n := (pr.GetNumberOfOptionParameters "--overlay").toNat
              let pushed := (List.range n).map (fun i => pr.GetOptionParameter "--overlay" (i : Int))
              { b with fnOverlay := b.fnOverlay ++ pushed }
            else b
          else a2
        let a4 :=
          if pr.IsOptionPresent "--labels" then
            { a3 with fnLabelDesc := pr.GetOptionParameter "--labels" 0 }
          else a3
        parseTail inp a4

/-- A parse result in which exactly the options of `present` are present, each with the single
parameter `param`. -/
def parseResultOf (present : List String) (param : String) : CommandLineArgumentParseResult :=
  { IsOptionPresent := fun o => present.contains o,
    GetOptionParameter := fun _ _ => param,
    GetNumberOfOptionParameters := fun _ => 1 }

/-- The input of `parse` for an accepted command line `snap <options>` without trailing
argument, each option with parameter `param`; `double` is stood for by `Int`. -/
def parseInputOf (present : List String) (param : String) : ParseInput Int :=
  { debugEventsCompiled := false, atof := fun _ => 0, tryParseOk := true,
    parseResult := parseResultOf present param, iTrailing := 3, argc := 3,
    argv := fun _ => "snap" }

namespace itk

/-! ## Facts about lines -/

theorem countsBefore_zero {α : Type} (line : RLLine α) : countsBefore line 0 = 0 := by
  cases line <;> rfl

theorem countsBefore_succ {α : Type} (line : RLLine α) (i : Nat) (r : RLSegment α)
    (h : line.get? i = some r) : countsBefore line (i + 1) = countsBefore line i + r.1 := by
  induction line generalizing i with
  | nil => simp at h
  | cons a rest ih =>
    cases i with
    | zero =>
      simp at h
      subst h
      simp [countsBefore, countsBefore_zero]
    | succ j =>
      simp at h
      have := ih j (by simpa using h)
      simp only [countsBefore, this]
      omega

theorem countsBefore_of_length_le {α : Type} (line : RLLine α) (n : Nat)
    (h : line.length ≤ n) : countsBefore line n = lineLength line := by
  induction line generalizing n with
  | nil => simp [countsBefore, lineLength]
  | cons a rest ih =>
    cases n with
    | zero => simp at h
    | succ m =>
      simp at h
      simp [countsBefore, lineLength, ih m h]

theorem countsBefore_le_lineLength {α : Type} (line : RLLine α) (n : Nat) :
    countsBefore line n ≤ lineLength line := by
  induction line generalizing n with
  | nil => simp [countsBefore, lineLength]
  | cons a rest ih =>
    cases n with
    | zero => simp [countsBefore]
    | succ m =>
      have := ih m
      simp only [countsBefore, lineLength]
      omega

theorem locate_iff {α : Type} (line : RLLine α) (k i r : Nat) :
    locate line k = some (i, r) ↔
      ∃ run, line.get? i = some run ∧ 1 ≤ r ∧ r ≤ run.1 ∧ k + r = countsBefore line (i + 1) := by
  induction line generalizing k i with
  | nil => simp [locate]
  | cons a rest ih =>
    by_cases hk : k < a.1
    · simp only [locate, hk, if_true, Option.some.injEq, Prod.mk.injEq]
      constructor
      · rintro ⟨rfl, rfl⟩
        refine ⟨a, by simp, by omega, by omega, ?_⟩
        simp [countsBefore, countsBefore_zero]
        omega
      · rintro ⟨run, hget, h1, h2, h3⟩
        cases i with
        | zero =>
          simp at hget
          subst hget
          simp [countsBefore, countsBefore_zero] at h3
          omega
        | succ j =>
          exfalso
          have hget2 : rest.get? j = some run := by simpa using hget
          have := countsBefore_succ rest j run hget2
          simp only [countsBefore] at h3
          omega
    · simp only [locate, hk, if_false, Option.map_eq_some', Prod.mk.injEq]
      constructor
      · rintro ⟨⟨j, r2⟩, hloc, rfl, rfl⟩
        obtain ⟨run, hget, h1, h2, h3⟩ := (ih (k - a.1) j).1 hloc
        refine ⟨run, by simpa using hget, h1, h2, ?_⟩
        simp only [countsBefore]
        omega
      · rintro ⟨run, hget, h1, h2, h3⟩
        cases i with
        | zero =>
          exfalso
          simp at hget
          subst hget
          simp [countsBefore, countsBefore_zero] at h3
          omega
        | succ j =>
          refine ⟨(j, r), ?_, rfl, rfl⟩
          refine (ih (k - a.1) j).2 ⟨run, by simpa using hget, h1, h2, ?_⟩
          simp only [countsBefore] at h3
          omega

theorem decompress_length {α : Type} (line : RLLine α) :
    (decompress line).length = lineLength line := by
  induction line with
  | nil => rfl
  | cons a rest ih => simp [decompress, lineLength, ih]

theorem decompress_get_of_locate {α : Type} (line : RLLine α) (k i r : Nat)
    (h : locate line k = some (i, r)) :
    ∃ run, line.get? i = some run ∧ (decompress line).get? k = some run.2 := by
  induction line generalizing k i with
  | nil => simp [locate] at h
  | cons a rest ih =>
    by_cases hk : k < a.1
    · simp only [locate, hk, if_true, Option.some.injEq, Prod.mk.injEq] at h
      obtain ⟨rfl, -⟩ := h
      refine ⟨a, by simp, ?_⟩
      simp only [decompress, List.get?_eq_getElem?]
      rw [List.getElem?_append_left (by simpa using hk)]
      simp [List.getElem?_replicate, hk]
    · simp only [locate, hk, if_false, Option.map_eq_some', Prod.mk.injEq] at h
      obtain ⟨⟨j, r2⟩, hloc, rfl, rfl⟩ := h
      obtain ⟨run, hget, hd⟩ := ih (k - a.1) j hloc
      refine ⟨run, by simpa using hget, ?_⟩
      simp only [decompress, List.get?_eq_getElem?] at hd ⊢
      rw [List.getElem?_append_right (by simpa using Nat.le_of_not_lt hk)]
      simpa using hd

/-! ## Facts about the run cursor -/

theorem runAt_iff {α : Type} (line : RLLine α) (i : Int) (r : RLSegment α) :
    runAt line i = some r ↔ 0 ≤ i ∧ line.get? i.toNat = some r := by
  unfold runAt
  by_cases h : 0 ≤ i <;> simp [h]

theorem runAt_mem {α : Type} (line : RLLine α) (i : Int) (r : RLSegment α)
    (h : runAt line i = some r) : r ∈ line :=
  List.get?_mem ((runAt_iff line i r).1 h).2

theorem locateCursor_iff {α : Type} (line : RLLine α) (k : Nat) (ri sr : Int) :
    locateCursor line k = some (ri, sr) ↔
      ∃ run, runAt line ri = some run ∧ 1 ≤ sr ∧ sr ≤ (run.1 : Int) ∧
        (k : Int) + sr = (countsBefore line (ri.toNat + 1) : Int) := by
  unfold locateCursor
  constructor
  · intro h
    obtain ⟨⟨i, r⟩, hloc, hp⟩ := Option.map_eq_some'.1 h
    simp only [Prod.mk.injEq] at hp
    obtain ⟨rfl, rfl⟩ := hp
    obtain ⟨run, hget, h1, h2, h3⟩ := (locate_iff line k i r).1 hloc
    refine ⟨run, (runAt_iff _ _ _).2 ⟨by omega, by simpa using hget⟩, by omega, by omega, ?_⟩
    simp only [Int.toNat_ofNat]
    omega
  · rintro ⟨run, hrun, h1, h2, h3⟩
    obtain ⟨h0, hget⟩ := (runAt_iff _ _ _).1 hrun
    have hloc : locate line k = some (ri.toNat, sr.toNat) :=
      (locate_iff line k ri.toNat sr.toNat).2 ⟨run, hget, by omega, by omega, by omega⟩
    rw [hloc]
    simp only [Option.map_some', Option.some.injEq, Prod.mk.injEq]
    constructor <;> omega

theorem operatorInc_interior {α : Type} (s : ImageScanlineConstIterator α)
    (hv : ValidLine s.rlLine) (hi : Interior s)
    (hnext : cursorOffset s + 1 < (lineLength s.rlLine : Int)) :
    ∃ s2, s.operatorInc = some s2 ∧ Interior s2 ∧ cursorOffset s2 = cursorOffset s + 1 ∧
      s2.m_Index = { s.m_Index with x0 := s.m_Index.x0 + 1 } ∧
      s2.m_BeginIndex = s.m_BeginIndex ∧ s2.m_EndIndex = s.m_EndIndex ∧ s2.rlLine = s.rlLine := by
  obtain ⟨run, hrun, h1, h2⟩ := hi
  obtain ⟨h0, hget⟩ := (runAt_iff _ _ _).1 hrun
  by_cases hsr : s.segmentRemainder - 1 > 0
  · have hstep : s.operatorInc = some { s with
        m_Index := { s.m_Index with x0 := s.m_Index.x0 + 1 },
        segmentRemainder := s.segmentRemainder - 1 } := by
      simp only [ImageScanlineConstIterator.operatorInc, hsr, if_true]
    refine ⟨_, hstep, ⟨run, hrun, ?_, ?_⟩, ?_, rfl, rfl, rfl, rfl⟩
    · simp only; omega
    · simp only; omega
    · simp only [cursorOffset]; omega
  · have hsr1 : s.segmentRemainder = 1 := by omega
    have hlen : s.realIndex.toNat + 1 < s.rlLine.length := by
      by_contra hcon
      have := countsBefore_of_length_le s.rlLine (s.realIndex.toNat + 1) (by omega)
      simp only [cursorOffset] at hnext
      omega
    obtain ⟨run2, hget2⟩ : ∃ run2, s.rlLine.get? (s.realIndex.toNat + 1) = some run2 :=
      ⟨_, List.get?_eq_get hlen⟩
    have htn : (s.realIndex + 1).toNat = s.realIndex.toNat + 1 := by omega
    have hrun2 : runAt s.rlLine (s.realIndex + 1) = some run2 :=
      (runAt_iff _ _ _).2 ⟨by omega, by rw [htn]; exact hget2⟩
    have hpos := hv run2 (runAt_mem _ _ _ hrun2)
    have hcb := countsBefore_succ s.rlLine (s.realIndex.toNat + 1) run2 hget2
    have hstep : s.operatorInc = some { s with
        m_Index := { s.m_Index with x0 := s.m_Index.x0 + 1 },
        realIndex := s.realIndex + 1,
        segmentRemainder := (run2.1 : Int) } := by
      simp only [ImageScanlineConstIterator.operatorInc, hsr, if_false, hrun2]
    refine ⟨_, hstep, ⟨run2, hrun2, ?_, ?_⟩, ?_, rfl, rfl, rfl, rfl⟩
    · simp only; omega
    · simp only; omega
    · simp only [cursorOffset, htn]; omega

theorem operatorDec_interior {α : Type} (s : ImageScanlineConstIterator α)
    (hv : ValidLine s.rlLine) (hi : Interior s) (hprev : 0 < cursorOffset s) :
    ∃ s2, s.operatorDec = some s2 ∧ Interior s2 ∧ cursorOffset s2 = cursorOffset s - 1 ∧
      s2.m_Index = { s.m_Index with x0 := s.m_Index.x0 - 1 } ∧
      s2.m_BeginIndex = s.m_BeginIndex ∧ s2.m_EndIndex = s.m_EndIndex ∧ s2.rlLine = s.rlLine := by
  obtain ⟨run, hrun, h1, h2⟩ := hi
  obtain ⟨h0, hget⟩ := (runAt_iff _ _ _).1 hrun
  by_cases hsr : s.segmentRemainder + 1 ≤ (run.1 : Int)
  · have hstep : s.operatorDec = some { s with
        m_Index := { s.m_Index with x0 := s.m_Index.x0 - 1 },
        segmentRemainder := s.segmentRemainder + 1 } := by
      simp only [ImageScanlineConstIterator.operatorDec, hrun, hsr, if_true]
    refine ⟨_, hstep, ⟨run, hrun, ?_, ?_⟩, ?_, rfl, rfl, rfl, rfl⟩
    · simp only; omega
    · simp only; omega
    · simp only [cursorOffset]; omega
  · have hcb := countsBefore_succ s.rlLine s.realIndex.toNat run hget
    have hz := countsBefore_zero s.rlLine
    simp only [cursorOffset] at hprev
    have hri : 1 ≤ s.realIndex := by
      by_contra hcon
      have h00 : s.realIndex.toNat = 0 := by omega
      rw [h00] at hcb hprev
      omega
    have hlen : s.realIndex.toNat < s.rlLine.length := by
      rw [List.get?_eq_getElem?] at hget
      exact (List.getElem?_eq_some_iff.1 hget).1
    obtain ⟨run0, hget0⟩ : ∃ run0, s.rlLine.get? (s.realIndex.toNat - 1) = some run0 :=
      ⟨_, List.get?_eq_get (by omega)⟩
    have htn : (s.realIndex - 1).toNat = s.realIndex.toNat - 1 := by omega
    have hrun0 : runAt s.rlLine (s.realIndex - 1) = some run0 :=
      (runAt_iff _ _ _).2 ⟨by omega, by rw [htn]; exact hget0⟩
    have hpos := hv run0 (runAt_mem _ _ _ hrun0)
    have hcb0 := countsBefore_succ s.rlLine (s.realIndex.toNat - 1) run0 hget0
    have hsub : s.realIndex.toNat - 1 + 1 = s.realIndex.toNat := by omega
    rw [hsub] at hcb0
    have hstep : s.operatorDec = some { s with
        m_Index := { s.m_Index with x0 := s.m_Index.x0 - 1 },
        realIndex := s.realIndex - 1,
        segmentRemainder := 1 } := by
      simp only [ImageScanlineConstIterator.operatorDec, hrun, hsr, if_false]
    refine ⟨_, hstep, ⟨run0, hrun0, ?_, ?_⟩, ?_, rfl, rfl, rfl, rfl⟩
    · simp only; omega
    · simp only; omega
    · simp only [cursorOffset, htn, hsub]; omega

theorem interior_iff_locateCursor {α : Type} (s : ImageScanlineConstIterator α) (k : Nat) :
    (Interior s ∧ cursorOffset s = (k : Int)) ↔
      locateCursor s.rlLine k = some (s.realIndex, s.segmentRemainder) := by
  rw [locateCursor_iff]
  unfold Interior cursorOffset
  constructor
  · rintro ⟨⟨run, hrun, h1, h2⟩, h3⟩
    exact ⟨run, hrun, h1, h2, by omega⟩
  · rintro ⟨run, hrun, h1, h2, h3⟩
    exact ⟨⟨run, hrun, h1, h2⟩, by omega⟩

theorem cursorOffset_nonneg {α : Type} (s : ImageScanlineConstIterator α) (hi : Interior s) :
    0 ≤ cursorOffset s := by
  obtain ⟨run, hrun, h1, h2⟩ := hi
  have hcb := countsBefore_succ s.rlLine s.realIndex.toNat run ((runAt_iff _ _ _).1 hrun).2
  unfold cursorOffset
  omega

theorem cursor_unique {α : Type} (s t : ImageScanlineConstIterator α)
    (hs : Interior s) (ht : Interior t) (hline : t.rlLine = s.rlLine)
    (hoff : cursorOffset t = cursorOffset s) :
    t.realIndex = s.realIndex ∧ t.segmentRemainder = s.segmentRemainder := by
  have h0 := cursorOffset_nonneg s hs
  have hk : cursorOffset s = ((cursorOffset s).toNat : Int) := by omega
  have e1 := (interior_iff_locateCursor s (cursorOffset s).toNat).1 ⟨hs, hk⟩
  have e2 := (interior_iff_locateCursor t (cursorOffset s).toNat).1 ⟨ht, by omega⟩
  rw [hline, e1] at e2
  simp only [Option.some.injEq, Prod.mk.injEq] at e2
  exact ⟨e2.1.symm, e2.2.symm⟩

theorem operatorIncN_interior {α : Type} (k : Nat) (s : ImageScanlineConstIterator α)
    (hv : ValidLine s.rlLine) (hi : Interior s)
    (hk : cursorOffset s + (k : Int) < (lineLength s.rlLine : Int)) :
    ∃ s2, s.operatorIncN k = some s2 ∧ Interior s2 ∧ cursorOffset s2 = cursorOffset s + (k : Int) ∧
      s2.m_Index = { s.m_Index with x0 := s.m_Index.x0 + (k : Int) } ∧
      s2.m_BeginIndex = s.m_BeginIndex ∧ s2.m_EndIndex = s.m_EndIndex ∧ s2.rlLine = s.rlLine := by
  induction k with
  | zero =>
    refine ⟨s, rfl, hi, by simp, ?_, rfl, rfl, rfl⟩
    cases s with
    | mk idx b e l ri sr => cases idx; simp
  | succ n ih =>
    obtain ⟨s1, hs1, hi1, ho1, hx1, hb1, he1, hl1⟩ := ih (by push_cast at hk; omega)
    obtain ⟨s2, hs2, hi2, ho2, hx2, hb2, he2, hl2⟩ :=
      operatorInc_interior s1 (hl1 ▸ hv) hi1 (by rw [hl1, ho1]; push_cast at hk; omega)
    refine ⟨s2, by simp only [ImageScanlineConstIterator.operatorIncN, hs1, Option.some_bind, hs2],
      hi2, by rw [ho2, ho1]; push_cast; omega, ?_, hb2.trans hb1, he2.trans he1, hl2.trans hl1⟩
    rw [hx2, hx1]
    simp only [IndexType.mk.injEq, and_true]
    push_cast
    omega

theorem goToBeginOfLine_interior {α : Type} (s : ImageScanlineConstIterator α)
    (hv : ValidLine s.rlLine) (hne : s.rlLine ≠ []) :
    ∃ s2, s.GoToBeginOfLine = some s2 ∧ Interior s2 ∧ cursorOffset s2 = 0 ∧
      s2.m_Index = { s.m_Index with x0 := s.m_BeginIndex.x0 } ∧
      s2.m_BeginIndex = s.m_BeginIndex ∧ s2.m_EndIndex = s.m_EndIndex ∧ s2.rlLine = s.rlLine := by
  cases hl : s.rlLine with
  | nil => exact absurd hl hne
  | cons r rest =>
    have hrun : runAt s.rlLine 0 = some r := by simp [runAt, hl]
    have hpos : 1 ≤ r.1 := hv r (by simp [hl])
    have hstep : s.GoToBeginOfLine = some { s with
        m_Index := { s.m_Index with x0 := s.m_BeginIndex.x0 },
        realIndex := 0,
        segmentRemainder := (r.1 : Int) } := by
      simp only [ImageScanlineConstIterator.GoToBeginOfLine, hrun]
    refine ⟨_, hstep, ⟨r, hrun, ?_, ?_⟩, ?_, rfl, rfl, rfl, hl⟩
    · simp only; omega
    · simp only; omega
    · simp [cursorOffset, hl, countsBefore, countsBefore_zero]

/-! ## The claims -/

/-- C1 (forward walk equals the dense line). On a line whose runs all have count at least 1 and
whose counts sum to `L`, with axis-0 region begin 0: `GoToBeginOfLine` followed by `k < L`
applications of `operator++` returns a state with `m_Index[0] = k`, run cursor `locate(k)`, and
whose dereferenced value is the `k`-th voxel of the decompressed line. -/
theorem forward_walk_eq_dense {α : Type} (s : ImageScanlineConstIterator α) (L k : Nat)
    (hv : ValidLine s.rlLine) (hsum : lineLength s.rlLine = L)
    (hb : s.m_BeginIndex.x0 = 0) (hk : k < L) :
    ∃ s2, s.GoToBeginOfLine.bind (ImageScanlineConstIterator.operatorIncN k) = some s2 ∧
      s2.m_Index.x0 = (k : Int) ∧
      locateCursor s.rlLine k = some (s2.realIndex, s2.segmentRemainder) ∧
      ∃ v, s2.Get = some v ∧ (decompress s.rlLine).get? k = some v := by
  have hne : s.rlLine ≠ [] := by
    intro h
    rw [h] at hsum
    simp [lineLength] at hsum
    omega
  obtain ⟨s1, hs1, hi1, ho1, hx1, -, -, hl1⟩ := goToBeginOfLine_interior s hv hne
  obtain ⟨s2, hs2, hi2, ho2, hx2, -, -, hl2⟩ :=
    operatorIncN_interior k s1 (hl1 ▸ hv) hi1 (by rw [ho1, hl1, hsum]; omega)
  have hloc : locateCursor s.rlLine k = some (s2.realIndex, s2.segmentRemainder) := by
    have := (interior_iff_locateCursor s2 k).1 ⟨hi2, by rw [ho2, ho1]; omega⟩
    rwa [hl2, hl1] at this
  refine ⟨s2, by rw [hs1]; exact hs2, by rw [hx2, hx1]; simp [hb], hloc, ?_⟩
  obtain ⟨run, hrun, h1, h2, h3⟩ := (locateCursor_iff _ _ _ _).1 hloc
  obtain ⟨h0, hget⟩ := (runAt_iff _ _ _).1 hrun
  have hl : locate s.rlLine k = some (s2.realIndex.toNat, s2.segmentRemainder.toNat) :=
    (locate_iff _ _ _ _).2 ⟨run, hget, by omega, by omega, by omega⟩
  obtain ⟨run2, hget2, hd⟩ := decompress_get_of_locate _ _ _ _ hl
  rw [hget] at hget2
  cases hget2
  refine ⟨run.2, ?_, hd⟩
  simp only [ImageScanlineConstIterator.Get, hl2, hl1, hrun, Option.map_some']

/-- Witness of C1 on the line `[(3,A),(2,B)]` of length 5: the theorem at offset 3, and the
whole trace of dereferenced values, `realIndex` and `segmentRemainder` for offsets 0 to 4. -/
theorem forward_walk_eq_dense_witness :
    (ValidLine lineAAABB ∧ lineLength lineAAABB = 5) ∧
    (∃ s2, (lineIterator lineAAABB 0 5 0 0 0).GoToBeginOfLine.bind
        (ImageScanlineConstIterator.operatorIncN 3) = some s2 ∧
      s2.m_Index.x0 = 3 ∧
      locateCursor lineAAABB 3 = some (s2.realIndex, s2.segmentRemainder) ∧
      ∃ v, s2.Get = some v ∧ (decompress lineAAABB).get? 3 = some v) ∧
    (List.range 5).map (fun k =>
        ((lineIterator lineAAABB 0 5 0 0 0).GoToBeginOfLine.bind
          (ImageScanlineConstIterator.operatorIncN k)).map
          (fun t => (t.Get, t.realIndex, t.segmentRemainder))) =
      [some (some 'A', 0, 3), some (some 'A', 0, 2), some (some 'A', 0, 1),
       some (some 'B', 1, 2), some (some 'B', 1, 1)] :=
  ⟨⟨by decide, by decide⟩,
   forward_walk_eq_dense (lineIterator lineAAABB 0 5 0 0 0) 5 3 (by decide) (by decide) rfl
     (by decide),
   by decide⟩

/-- C2 (inverse step). For an interior state over a line whose runs all have count at least 1:
if the next voxel exists in the line, `operator++` followed by `operator--` returns exactly the
state started from; if the previous voxel exists in the line, `operator--` followed by
`operator++` does. All fields are restored, also across a run boundary. -/
theorem inverse_step {α : Type} (s : ImageScanlineConstIterator α)
    (hv : ValidLine s.rlLine) (hi : Interior s) :
    (cursorOffset s + 1 < (lineLength s.rlLine : Int) →
      s.operatorInc.bind ImageScanlineConstIterator.operatorDec = some s) ∧
    (0 < cursorOffset s →
      s.operatorDec.bind ImageScanlineConstIterator.operatorInc = some s) := by
  have h0 := cursorOffset_nonneg s hi
  constructor
  · intro hnext
    obtain ⟨s1, hs1, hi1, ho1, hx1, hb1, he1, hl1⟩ := operatorInc_interior s hv hi hnext
    obtain ⟨s2, hs2, hi2, ho2, hx2, hb2, he2, hl2⟩ :=
      operatorDec_interior s1 (hl1 ▸ hv) hi1 (by omega)
    obtain ⟨hr, hsr⟩ := cursor_unique s s2 hi hi2 (hl2.trans hl1) (by omega)
    rw [hs1, Option.some_bind, hs2]
    rw [hx1] at hx2
    rw [hb1] at hb2
    rw [he1] at he2
    rw [hl1] at hl2
    cases s with
    | mk idx b e l ri sr =>
      cases s2 with
      | mk idx2 b2 e2 l2 ri2 sr2 =>
        cases idx
        simp only at hx2 hb2 he2 hl2 hr hsr
        subst hx2 hb2 he2 hl2 hr hsr
        simp
  · intro hprev
    obtain ⟨s1, hs1, hi1, ho1, hx1, hb1, he1, hl1⟩ := operatorDec_interior s hv hi hprev
    have hlen := countsBefore_le_lineLength s.rlLine (s.realIndex.toNat + 1)
    have h1 : 1 ≤ s.segmentRemainder := by
      obtain ⟨run, -, h1, -⟩ := hi
      exact h1
    obtain ⟨s2, hs2, hi2, ho2, hx2, hb2, he2, hl2⟩ :=
      operatorInc_interior s1 (hl1 ▸ hv) hi1 (by rw [hl1, ho1]; unfold cursorOffset; omega)
    obtain ⟨hr, hsr⟩ := cursor_unique s s2 hi hi2 (hl2.trans hl1) (by omega)
    rw [hs1, Option.some_bind, hs2]
    rw [hx1] at hx2
    rw [hb1] at hb2
    rw [he1] at he2
    rw [hl1] at hl2
    cases s with
    | mk idx b e l ri sr =>
      cases s2 with
      | mk idx2 b2 e2 l2 ri2 sr2 =>
        cases idx
        simp only at hx2 hb2 he2 hl2 hr hsr
        subst hx2 hb2 he2 hl2 hr hsr
        simp

/-- Witness of C2 on the line `[(3,A),(2,B)]` at offset 2, the last voxel of the first run: both
round trips cross a run boundary or stay inside the run, and restore the state. -/
theorem inverse_step_witness :
    (ValidLine lineAAABB ∧ Interior (lineIterator lineAAABB 0 5 2 0 1)) ∧
    ((cursorOffset (lineIterator lineAAABB 0 5 2 0 1) + 1 < (lineLength lineAAABB : Int) →
      (lineIterator lineAAABB 0 5 2 0 1).operatorInc.bind ImageScanlineConstIterator.operatorDec
        = some (lineIterator lineAAABB 0 5 2 0 1)) ∧
    (0 < cursorOffset (lineIterator lineAAABB 0 5 2 0 1) →
      (lineIterator lineAAABB 0 5 2 0 1).operatorDec.bind ImageScanlineConstIterator.operatorInc
        = some (lineIterator lineAAABB 0 5 2 0 1))) ∧
    cursorOffset (lineIterator lineAAABB 0 5 2 0 1) = 2 ∧
    (lineIterator lineAAABB 0 5 2 0 1).operatorInc = some (lineIterator lineAAABB 0 5 3 1 2) ∧
    (lineIterator lineAAABB 0 5 3 1 2).operatorDec = some (lineIterator lineAAABB 0 5 2 0 1) :=
  ⟨⟨by decide, ⟨(3, 'A'), by decide, by decide, by decide⟩⟩,
   inverse_step (lineIterator lineAAABB 0 5 2 0 1) (by decide)
     ⟨(3, 'A'), by decide, by decide, by decide⟩,
   by decide, by decide, by decide⟩

/-- C3 (interior invariant). Over a non-empty line whose runs all have count at least 1, the
predicate "`realIndex` names a run and `1 ≤ segmentRemainder ≤ rlLine[realIndex].count`" is
established by `GoToBeginOfLine`, preserved by `operator++` whenever the voxel stepped onto is
still inside the line, preserved by `operator--` whenever the cursor is not on the first voxel of
the line, and therefore holds in every state reachable by these operations. -/
theorem interior_invariant {α : Type} (s0 : ImageScanlineConstIterator α)
    (hv : ValidLine s0.rlLine) (hne : s0.rlLine ≠ []) :
    (∃ s, s0.GoToBeginOfLine = some s ∧ Interior s) ∧
    (∀ s, s.rlLine = s0.rlLine → Interior s →
      cursorOffset s + 1 < (lineLength s.rlLine : Int) →
      ∃ t, s.operatorInc = some t ∧ Interior t) ∧
    (∀ s, s.rlLine = s0.rlLine → Interior s → 0 < cursorOffset s →
      ∃ t, s.operatorDec = some t ∧ Interior t) ∧
    (∀ s, InteriorReachable s0 s → Interior s) := by
  refine ⟨?_, ?_, ?_, ?_⟩
  · obtain ⟨s, hs, hi, -⟩ := goToBeginOfLine_interior s0 hv hne
    exact ⟨s, hs, hi⟩
  · intro s hl hi hnext
    obtain ⟨t, ht, hit, -⟩ := operatorInc_interior s (hl ▸ hv) hi hnext
    exact ⟨t, ht, hit⟩
  · intro s hl hi hprev
    obtain ⟨t, ht, hit, -⟩ := operatorDec_interior s (hl ▸ hv) hi hprev
    exact ⟨t, ht, hit⟩
  · intro s hr
    have key : Interior s ∧ s.rlLine = s0.rlLine := by
      induction hr with
      | start h =>
        obtain ⟨s1, hs1, hi1, -, -, -, -, hl1⟩ := goToBeginOfLine_interior s0 hv hne
        rw [hs1] at h
        cases h
        exact ⟨hi1, hl1⟩
      | incr _ hnext hstep ih =>
        obtain ⟨t1, ht1, hit1, -, -, -, -, hl1⟩ := operatorInc_interior _ (ih.2 ▸ hv) ih.1 hnext
        rw [ht1] at hstep
        cases hstep
        exact ⟨hit1, hl1.trans ih.2⟩
      | decr _ hprev hstep ih =>
        obtain ⟨t1, ht1, hit1, -, -, -, -, hl1⟩ := operatorDec_interior _ (ih.2 ▸ hv) ih.1 hprev
        rw [ht1] at hstep
        cases hstep
        exact ⟨hit1, hl1.trans ih.2⟩
    exact key.1

/-- Witness of C3 on the line `[(3,A),(2,B)]`. -/
theorem interior_invariant_witness :
    (ValidLine lineAAABB ∧ lineAAABB ≠ []) ∧
    ∀ s, InteriorReachable (lineIterator lineAAABB 0 5 0 0 0) s → Interior s :=
  ⟨⟨by decide, by decide⟩,
   (interior_invariant (lineIterator lineAAABB 0 5 0 0 0) (by decide) (by decide)).2.2.2⟩

/-- C4 (postcondition of `operator++`, as amended). In a state that is not at end-of-line: if the
old `segmentRemainder` is greater than 1, `operator++` returns the state with `m_Index[0]`
increased by exactly 1, `segmentRemainder` decreased by 1, and `realIndex`, `m_Index[1]`,
`m_Index[2]`, the begin and end indices and the selected line unchanged; if the old
`segmentRemainder` is exactly 1 and the run `realIndex + 1` exists, it returns the state with
`m_Index[0]` increased by exactly 1, `realIndex` increased by 1, `segmentRemainder` the full
count of that run, and the other fields unchanged. -/
theorem increment_postcondition {α : Type} (s : ImageScanlineConstIterator α)
    (_hnotEnd : s.IsAtEndOfLine = false) :
    (1 < s.segmentRemainder →
      s.operatorInc = some { s with
        m_Index := { s.m_Index with x0 := s.m_Index.x0 + 1 },
        segmentRemainder := s.segmentRemainder - 1 }) ∧
    (s.segmentRemainder = 1 → ∀ r, runAt s.rlLine (s.realIndex + 1) = some r →
      s.operatorInc = some { s with
        m_Index := { s.m_Index with x0 := s.m_Index.x0 + 1 },
        realIndex := s.realIndex + 1,
        segmentRemainder := (r.1 : Int) }) := by
  refine ⟨?_, ?_⟩
  · intro h
    have hsr : s.segmentRemainder - 1 > 0 := by omega
    simp only [ImageScanlineConstIterator.operatorInc, hsr, if_true]
  · intro h r hr
    have hsr : ¬ (s.segmentRemainder - 1 > 0) := by omega
    simp only [ImageScanlineConstIterator.operatorInc, hsr, if_false, hr]

/-- Witness of C4 on the line `[(3,A),(2,B)]`, at offset 2 (remainder 1, the step enters the
second run) and at offset 0 (remainder 3, the step stays in the first run). -/
theorem increment_postcondition_witness :
    (lineIterator lineAAABB 0 5 2 0 1).IsAtEndOfLine = false ∧
    (lineIterator lineAAABB 0 5 2 0 1).operatorInc = some (lineIterator lineAAABB 0 5 3 1 2) ∧
    (lineIterator lineAAABB 0 5 0 0 3).operatorInc = some (lineIterator lineAAABB 0 5 1 0 2) :=
  ⟨by decide,
   ((increment_postcondition (lineIterator lineAAABB 0 5 2 0 1) (by decide)).2 rfl
     (2, 'B') (by decide)).trans (by decide),
   ((increment_postcondition (lineIterator lineAAABB 0 5 0 0 3) (by decide)).1
     (by decide)).trans (by decide)⟩

/-- Counterexample to C4 as stated, on the full line `[(3,A),(2,B)]` with axis-0 region
`[0, 5)`: at the last voxel, `m_Index[0] = 4` with run cursor `(1, 1)`, the iterator is not at
end-of-line and `segmentRemainder` is exactly 1, but there is no run `realIndex + 1 = 2` to
enter and `operator++` returns no state at all; in particular no state with `m_Index[0] = 5`,
`realIndex = 2` and `segmentRemainder` the count of an entered run. -/
theorem increment_postcondition_counterexample :
    (lineIterator lineAAABB 0 5 4 1 1).IsAtEndOfLine = false ∧
    (lineIterator lineAAABB 0 5 4 1 1).segmentRemainder = 1 ∧
    runAt lineAAABB ((lineIterator lineAAABB 0 5 4 1 1).realIndex + 1) = none ∧
    (lineIterator lineAAABB 0 5 4 1 1).operatorInc = none ∧
    ¬ ∃ t, (lineIterator lineAAABB 0 5 4 1 1).operatorInc = some t ∧
        t.m_Index.x0 = (lineIterator lineAAABB 0 5 4 1 1).m_Index.x0 + 1 ∧
        t.realIndex = (lineIterator lineAAABB 0 5 4 1 1).realIndex + 1 ∧
        ∃ r, runAt lineAAABB t.realIndex = some r ∧ t.segmentRemainder = (r.1 : Int) := by
  have hnone : (lineIterator lineAAABB 0 5 4 1 1).operatorInc = none := by decide
  refine ⟨by decide, by decide, by decide, hnone, ?_⟩
  rintro ⟨t, ht, -⟩
  rw [hnone] at ht
  cases ht

/-- C5 (postcondition of `operator--`). In a state that is not at begin-of-line, whenever
`operator--` returns it has decreased `m_Index[0]` by exactly 1 and left `m_Index[1]`,
`m_Index[2]`, the begin and end indices and the selected line unchanged. With `r` the run
`rlLine[realIndex]` the operation reads: if the old `segmentRemainder` plus 1 is at most the
count of `r` it returns with `realIndex` unchanged and `segmentRemainder` increased by 1;
otherwise it returns with `realIndex` decreased by 1 and `segmentRemainder` exactly 1 (not the
count of the run entered). -/
theorem decrement_postcondition {α : Type} (s : ImageScanlineConstIterator α)
    (_hnotBegin : s.m_Index.x0 ≠ s.m_BeginIndex.x0) :
    (∀ t, s.operatorDec = some t →
      t.m_Index = { s.m_Index with x0 := s.m_Index.x0 - 1 } ∧
      t.m_BeginIndex = s.m_BeginIndex ∧ t.m_EndIndex = s.m_EndIndex ∧ t.rlLine = s.rlLine) ∧
    (∀ r, runAt s.rlLine s.realIndex = some r →
      (s.segmentRemainder + 1 ≤ (r.1 : Int) →
        s.operatorDec = some { s with
          m_Index := { s.m_Index with x0 := s.m_Index.x0 - 1 },
          segmentRemainder := s.segmentRemainder + 1 }) ∧
      (¬ s.segmentRemainder + 1 ≤ (r.1 : Int) →
        s.operatorDec = some { s with
          m_Index := { s.m_Index with x0 := s.m_Index.x0 - 1 },
          realIndex := s.realIndex - 1,
          segmentRemainder := 1 })) := by
  refine ⟨?_, ?_⟩
  · intro t ht
    simp only [ImageScanlineConstIterator.operatorDec] at ht
    split at ht
    · cases ht
    · split at ht
      · cases ht
        exact ⟨rfl, rfl, rfl, rfl⟩
      · cases ht
        exact ⟨rfl, rfl, rfl, rfl⟩
  · intro r hr
    constructor
    · intro h
      simp only [ImageScanlineConstIterator.operatorDec, hr, h, if_true]
    · intro h
      simp only [ImageScanlineConstIterator.operatorDec, hr, h, if_false]

/-- Witness of C5 on the line `[(3,A),(2,B)]`, at offset 3 (first voxel of the second run,
remainder 2 of count 2: the step enters the first run with remainder 1, although that run has
count 3) and at offset 4 (remainder 1 of count 2: the step stays in the run). -/
theorem decrement_postcondition_witness :
    (lineIterator lineAAABB 0 5 3 1 2).m_Index.x0 ≠ (lineIterator lineAAABB 0 5 3 1 2).m_BeginIndex.x0 ∧
    (lineIterator lineAAABB 0 5 3 1 2).operatorDec = some (lineIterator lineAAABB 0 5 2 0 1) ∧
    (lineIterator lineAAABB 0 5 4 1 1).operatorDec = some (lineIterator lineAAABB 0 5 3 1 2) :=
  ⟨by decide,
   (((decrement_postcondition (lineIterator lineAAABB 0 5 3 1 2) (by decide)).2
     (2, 'B') (by decide)).2 (by decide)).trans (by decide),
   (((decrement_postcondition (lineIterator lineAAABB 0 5 4 1 1) (by decide)).2
     (2, 'B') (by decide)).1 (by decide)).trans (by decide)⟩

theorem operatorInc_last_voxel {α : Type} (s : ImageScanlineConstIterator α)
    (hv : ValidLine s.rlLine) (hi : Interior s)
    (hlast : cursorOffset s + 1 = (lineLength s.rlLine : Int)) :
    s.segmentRemainder = 1 ∧ s.realIndex + 1 = (s.rlLine.length : Int) ∧
      runAt s.rlLine (s.realIndex + 1) = none ∧ s.operatorInc = none := by
  obtain ⟨run, hrun, h1, h2⟩ := hi
  obtain ⟨h0, hget⟩ := (runAt_iff _ _ _).1 hrun
  have hle := countsBefore_le_lineLength s.rlLine (s.realIndex.toNat + 1)
  have hle2 := countsBefore_le_lineLength s.rlLine (s.realIndex.toNat + 1 + 1)
  simp only [cursorOffset] at hlast
  have hsr : s.segmentRemainder = 1 := by omega
  have hlen : s.realIndex.toNat < s.rlLine.length := by
    rw [List.get?_eq_getElem?] at hget
    exact (List.getElem?_eq_some_iff.1 hget).1
  have hlen2 : ¬ s.realIndex.toNat + 1 < s.rlLine.length := by
    intro hcon
    obtain ⟨run2, hget2⟩ : ∃ run2, s.rlLine.get? (s.realIndex.toNat + 1) = some run2 :=
      ⟨_, List.get?_eq_get hcon⟩
    have hpos := hv run2 (List.get?_mem hget2)
    have hcb := countsBefore_succ s.rlLine (s.realIndex.toNat + 1) run2 hget2
    omega
  have htn : (s.realIndex + 1).toNat = s.realIndex.toNat + 1 := by omega
  have hnone : runAt s.rlLine (s.realIndex + 1) = none := by
    unfold runAt
    rw [if_pos (by omega), htn, List.get?_eq_getElem?]
    exact List.getElem?_eq_none (by omega)
  have hnot : ¬ (s.segmentRemainder - 1 > 0) := by omega
  refine ⟨hsr, by omega, hnone, ?_⟩
  simp only [ImageScanlineConstIterator.operatorInc, hnot, if_false, hnone]

/-- C6 (`GoToBeginOfLine` against `locate(b0)`). On a valid line of length `L` and a region with
axis-0 begin `b0 < L`, `GoToBeginOfLine` returns with `m_Index[0] = b0`, `realIndex = 0` and
`segmentRemainder` the count of the first run; this run cursor is `locate(b0)` if and only if
`b0 = 0`. For a sub-line region (`b0 > 0`) the run cursor is not `locate(b0)`. -/
theorem goToBeginOfLine_locate_iff {α : Type} (s : ImageScanlineConstIterator α) (b0 : Nat)
    (hv : ValidLine s.rlLine) (hb : s.m_BeginIndex.x0 = (b0 : Int))
    (hlt : b0 < lineLength s.rlLine) :
    ∃ t r, s.GoToBeginOfLine = some t ∧ runAt s.rlLine 0 = some r ∧
      t.m_Index.x0 = (b0 : Int) ∧ t.realIndex = 0 ∧ t.segmentRemainder = (r.1 : Int) ∧
      (locateCursor s.rlLine b0 = some (t.realIndex, t.segmentRemainder) ↔ b0 = 0) := by
  have hne : s.rlLine ≠ [] := by
    intro h
    rw [h] at hlt
    simp [lineLength] at hlt
  obtain ⟨t, ht, hi, ho, hx, -, -, hl⟩ := goToBeginOfLine_interior s hv hne
  obtain ⟨r, rest, hline⟩ := List.exists_cons_of_ne_nil hne
  have hrun : runAt s.rlLine 0 = some r := by simp [runAt, hline]
  have ht2 := ht
  simp only [ImageScanlineConstIterator.GoToBeginOfLine, hrun] at ht2
  cases ht2
  refine ⟨_, r, ht, hrun, by simp [hb], rfl, rfl, ?_⟩
  have key := (interior_iff_locateCursor _ b0).symm.trans (and_iff_right hi)
  simp only at key
  simp only [key, ho]
  omega

/-- Witness of C6: region `[1,3)` over the line `[(2,A),(2,B)]`. `GoToBeginOfLine` leaves the run
cursor `(0, 2)` at `m_Index[0] = 1`, whereas `locate(1) = (0, 1)`. -/
theorem goToBeginOfLine_locate_iff_witness :
    (ValidLine lineAABB ∧ (1 : Nat) < lineLength lineAABB) ∧
    (∃ t r, (lineIterator lineAABB 1 3 1 0 1).GoToBeginOfLine = some t ∧
      runAt lineAABB 0 = some r ∧
      t.m_Index.x0 = ((1 : Nat) : Int) ∧ t.realIndex = 0 ∧ t.segmentRemainder = (r.1 : Int) ∧
      (locateCursor lineAABB 1 = some (t.realIndex, t.segmentRemainder) ↔ (1 : Nat) = 0)) ∧
    (lineIterator lineAABB 1 3 1 0 1).GoToBeginOfLine = some (lineIterator lineAABB 1 3 1 0 2) ∧
    locateCursor lineAABB 1 = some (0, 1) :=
  ⟨⟨by decide, by decide⟩,
   goToBeginOfLine_locate_iff (lineIterator lineAABB 1 3 1 0 1) 1 (by decide) rfl (by decide),
   by decide, by decide⟩

/-- C7 (postcondition of `GoToEndOfLine`). From every state over a non-empty line,
`GoToEndOfLine` sets `m_Index[0]` to the axis-0 end of the region, `realIndex` to the number of
runs minus 1, which is the index of the last run, and `segmentRemainder` to 0; it leaves
`m_Index[1]`, `m_Index[2]`, the begin and end indices and the selected line unchanged, and
`IsAtEndOfLine` is true immediately afterwards. -/
theorem goToEndOfLine_postcondition {α : Type} (s : ImageScanlineConstIterator α)
    (hne : s.rlLine ≠ []) :
    s.GoToEndOfLine = { s with
        m_Index := { s.m_Index with x0 := s.m_EndIndex.x0 },
        realIndex := (s.rlLine.length : Int) - 1,
        segmentRemainder := 0 } ∧
    s.GoToEndOfLine.m_Index.x0 = s.m_EndIndex.x0 ∧
    s.GoToEndOfLine.m_Index.x1 = s.m_Index.x1 ∧
    s.GoToEndOfLine.m_Index.x2 = s.m_Index.x2 ∧
    s.GoToEndOfLine.m_BeginIndex = s.m_BeginIndex ∧
    s.GoToEndOfLine.m_EndIndex = s.m_EndIndex ∧
    s.GoToEndOfLine.rlLine = s.rlLine ∧
    s.GoToEndOfLine.segmentRemainder = 0 ∧
    (∃ r, runAt s.rlLine s.GoToEndOfLine.realIndex = some r ∧ s.rlLine.getLast? = some r) ∧
    s.GoToEndOfLine.IsAtEndOfLine = true := by
  refine ⟨rfl, rfl, rfl, rfl, rfl, rfl, rfl, rfl, ?_, ?_⟩
  · have hlen : 0 < s.rlLine.length := List.length_pos.2 hne
    have hr : runAt s.rlLine s.GoToEndOfLine.realIndex = s.rlLine.getLast? := by
      have htn : ((s.rlLine.length : Int) - 1).toNat = s.rlLine.length - 1 := by omega
      simp only [ImageScanlineConstIterator.GoToEndOfLine, runAt]
      rw [if_pos (by omega), htn, List.getLast?_eq_getElem?, List.get?_eq_getElem?]
    obtain ⟨r, hlast⟩ : ∃ r, s.rlLine.getLast? = some r := by
      cases h : s.rlLine.getLast? with
      | none => exact absurd (List.getLast?_eq_none_iff.1 h) hne
      | some r => exact ⟨r, rfl⟩
    exact ⟨r, hr.trans hlast, hlast⟩
  · simp [ImageScanlineConstIterator.GoToEndOfLine, ImageScanlineConstIterator.IsAtEndOfLine]

/-- Witness of C7 on the line `[(3,A),(2,B)]` with axis-0 region `[0, 5)`, from offset 2. -/
theorem goToEndOfLine_postcondition_witness :
    lineAAABB ≠ [] ∧
    (lineIterator lineAAABB 0 5 2 0 1).GoToEndOfLine = lineIterator lineAAABB 0 5 5 1 0 ∧
    (lineIterator lineAAABB 0 5 2 0 1).GoToEndOfLine.IsAtEndOfLine = true :=
  ⟨by decide,
   (goToEndOfLine_postcondition (lineIterator lineAAABB 0 5 2 0 1) (by decide)).1.trans
     (by decide),
   (goToEndOfLine_postcondition (lineIterator lineAAABB 0 5 2 0 1) (by decide)).2.2.2.2.2.2.2.2.2⟩

/-- C8 (a line sweep towards `e0`). Region `[b0, e0)` with `b0 < e0 ≤ L` on a valid line of
length `L`, iterator positioned at `b0` (run cursor `locate(b0)`), and `k ≤ e0 - b0` applications
of `operator++`. As long as the position reached is inside the line (`b0 + k < L`) the sweep
returns a state with `m_Index[0] = b0 + k`, run cursor `locate(b0 + k)`, and `IsAtEndOfLine` true
exactly when `k = e0 - b0`. When the position reached is the end of the line (`b0 + k = L`, which
needs `e0 = L` and `k = e0 - b0`) the last `operator++` reads the run after the last one and the
sweep has no defined result. -/
theorem line_sweep {α : Type} (s : ImageScanlineConstIterator α) (b0 e0 k : Nat)
    (hv : ValidLine s.rlLine) (hbe : b0 < e0) (hel : e0 ≤ lineLength s.rlLine)
    (hidx : s.m_Index.x0 = (b0 : Int)) (hend : s.m_EndIndex.x0 = (e0 : Int))
    (hcur : locateCursor s.rlLine b0 = some (s.realIndex, s.segmentRemainder))
    (hk : k ≤ e0 - b0) :
    (b0 + k < lineLength s.rlLine →
      ∃ t, s.operatorIncN k = some t ∧ t.m_Index.x0 = ((b0 + k : Nat) : Int) ∧
        (t.IsAtEndOfLine = true ↔ k = e0 - b0) ∧
        locateCursor s.rlLine (b0 + k) = some (t.realIndex, t.segmentRemainder)) ∧
    (b0 + k = lineLength s.rlLine → s.operatorIncN k = none) := by
  obtain ⟨hi, ho⟩ := (interior_iff_locateCursor s b0).2 hcur
  constructor
  · intro hlt
    obtain ⟨t, ht, hit, hot, hxt, -, het, hlt2⟩ :=
      operatorIncN_interior k s hv hi (by rw [ho]; omega)
    have hx0 : t.m_Index.x0 = ((b0 + k : Nat) : Int) := by
      rw [hxt]
      simp only [hidx]
      push_cast
      rfl
    refine ⟨t, ht, hx0, ?_, ?_⟩
    · simp only [ImageScanlineConstIterator.IsAtEndOfLine, decide_eq_true_eq, hx0, het, hend]
      omega
    · have := (interior_iff_locateCursor t (b0 + k)).1 ⟨hit, by rw [hot, ho]; push_cast; rfl⟩
      rwa [hlt2] at this
  · intro heq
    obtain ⟨n, rfl⟩ : ∃ n, k = n + 1 := ⟨k - 1, by omega⟩
    obtain ⟨t, ht, hit, hot, -, -, -, hlt2⟩ :=
      operatorIncN_interior n s hv hi (by rw [ho]; omega)
    have hnone := (operatorInc_last_voxel t (hlt2 ▸ hv) hit (by rw [hot, ho, hlt2]; omega)).2.2.2
    simp only [ImageScanlineConstIterator.operatorIncN, ht, Option.some_bind, hnone]

/-- Witness of C8. On the full line `[(3,A),(2,B)]` (region `[0, 5)`, `L = 5`): after `L - 1 = 4`
increments `IsAtEndOfLine` is false, and the fifth increment has no defined result. On region
`[1, 3)` of the line `[(2,A),(2,B)]`, from the cursor `locate(1) = (0, 1)`: the dereferenced
values are `A`, `B`, and `IsAtEndOfLine` holds after 2 increments. -/
theorem line_sweep_witness :
    (ValidLine lineAAABB ∧ locateCursor lineAAABB 0 = some (0, 3)) ∧
    ((lineIterator lineAAABB 0 5 0 0 3).operatorIncN 5 = none) ∧
    ((lineIterator lineAAABB 0 5 0 0 3).operatorIncN 4 = some (lineIterator lineAAABB 0 5 4 1 1) ∧
      (lineIterator lineAAABB 0 5 4 1 1).IsAtEndOfLine = false ∧
      (lineIterator lineAAABB 0 5 4 1 1).operatorInc = none) ∧
    (locateCursor lineAABB 1 = some (0, 1) ∧
      (List.range 3).map (fun k =>
        ((lineIterator lineAABB 1 3 1 0 1).operatorIncN k).map
          (fun t => (t.m_Index.x0, t.Get, t.IsAtEndOfLine))) =
        [some (1, some 'A', false), some (2, some 'B', false), some (3, some 'B', true)]) :=
  ⟨⟨by decide, by decide⟩,
   (line_sweep (lineIterator lineAAABB 0 5 0 0 3) 0 5 5 (by decide) (by decide) (by decide)
     rfl rfl (by decide) (by decide)).2 (by decide),
   ⟨by decide, by decide, by decide⟩,
   ⟨by decide, by decide⟩⟩

theorem locateCursor_of_lt {α : Type} (line : RLLine α) (k : Nat) (h : k < lineLength line) :
    ∃ c, locateCursor line k = some c := by
  induction line generalizing k with
  | nil => simp [lineLength] at h
  | cons a rest ih =>
    by_cases hk : k < a.1
    · exact ⟨_, by simp only [locateCursor, locate, hk, if_true, Option.map_some']; rfl⟩
    · simp only [lineLength] at h
      obtain ⟨c, hc⟩ := ih (k - a.1) (by omega)
      simp only [locateCursor, Option.map_eq_some'] at hc
      obtain ⟨p, hp, -⟩ := hc
      exact ⟨_, by simp only [locateCursor, locate, hk, if_false, hp, Option.map_some']; rfl⟩

/-- C9 (`NextLine` advances in raster order). `NextLine` is exactly `Increment` of the base
iterator. For an iterator over the region `[b0,e0) x [b1,e1) x [b2,e2)` whose `m_Index[2]` is
below `e2`, over an image whose lines all have length `N0 > b0`: if `m_Index[1] + 1` stays below `e1`, `NextLine` increments
`m_Index[1]`; if it reaches `e1` and the iterator is not on the last scanline, `NextLine` resets
`m_Index[1]` to `b1` and increments `m_Index[2]`; in both cases it selects the line of the new
`(i1, i2)`, sets `m_Index[0] = b0` and the run cursor to `locate(b0)` of that line, and the state
is not the end-of-region sentinel. A state returned by `NextLine` is the end-of-region sentinel
exactly when its `m_Index[2]` has reached `e2`. -/
theorem nextLine_raster_order {α : Type} (image : RLEImage α)
    (s : ImageScanlineConstIterator α) (N0 : Nat)
    (hlen : ∀ i1 i2, lineLength (image.getLine i1 i2) = N0)
    (hb0 : 0 ≤ s.m_BeginIndex.x0) (hb0N : s.m_BeginIndex.x0 < (N0 : Int))
    (h2 : s.m_Index.x2 < s.m_EndIndex.x2) :
    s.NextLine image = s.Increment image ∧
    (s.m_Index.x1 + 1 < s.m_EndIndex.x1 →
      ∃ t, s.NextLine image = some t ∧
        t.m_Index = ⟨s.m_BeginIndex.x0, s.m_Index.x1 + 1, s.m_Index.x2⟩ ∧
        t.rlLine = image.getLine (s.m_Index.x1 + 1) s.m_Index.x2 ∧
        locateCursor t.rlLine s.m_BeginIndex.x0.toNat = some (t.realIndex, t.segmentRemainder) ∧
        t.m_BeginIndex = s.m_BeginIndex ∧ t.m_EndIndex = s.m_EndIndex ∧
        t.IsAtEndOfRegion = false) ∧
    (s.m_Index.x1 + 1 = s.m_EndIndex.x1 → s.m_Index.x2 + 1 < s.m_EndIndex.x2 →
      ∃ t, s.NextLine image = some t ∧
        t.m_Index = ⟨s.m_BeginIndex.x0, s.m_BeginIndex.x1, s.m_Index.x2 + 1⟩ ∧
        t.rlLine = image.getLine s.m_BeginIndex.x1 (s.m_Index.x2 + 1) ∧
        locateCursor t.rlLine s.m_BeginIndex.x0.toNat = some (t.realIndex, t.segmentRemainder) ∧
        t.m_BeginIndex = s.m_BeginIndex ∧ t.m_EndIndex = s.m_EndIndex ∧
        t.IsAtEndOfRegion = false) ∧
    (∀ t, s.NextLine image = some t →
      (t.IsAtEndOfRegion = true ↔ t.m_Index.x2 = t.m_EndIndex.x2)) := by
  have hloc : ∀ i1 i2, ∃ c, locateCursor (image.getLine i1 i2) s.m_BeginIndex.x0.toNat = some c :=
    fun i1 i2 => locateCursor_of_lt _ _ (by rw [hlen]; omega)
  refine ⟨rfl, ?_, ?_, ?_⟩
  · intro hlt
    obtain ⟨c, hc⟩ := hloc (s.m_Index.x1 + 1) s.m_Index.x2
    have hw : ¬ s.m_EndIndex.x1 ≤ s.m_Index.x1 + 1 := by omega
    have he : ¬ s.m_EndIndex.x2 ≤ s.m_Index.x2 := by omega
    refine ⟨{ s with m_Index := ⟨s.m_BeginIndex.x0, s.m_Index.x1 + 1, s.m_Index.x2⟩,
                     rlLine := image.getLine (s.m_Index.x1 + 1) s.m_Index.x2,
                     realIndex := c.1, segmentRemainder := c.2 }, ?_, rfl, rfl, hc, rfl, rfl, ?_⟩
    · simp [ImageScanlineConstIterator.NextLine, ImageScanlineConstIterator.Increment, hw, he, hc]
    · simp [ImageScanlineConstIterator.IsAtEndOfRegion, he]
  · intro heq hlt
    obtain ⟨c, hc⟩ := hloc s.m_BeginIndex.x1 (s.m_Index.x2 + 1)
    have hw : s.m_EndIndex.x1 ≤ s.m_Index.x1 + 1 := by omega
    have he : ¬ s.m_EndIndex.x2 ≤ s.m_Index.x2 + 1 := by omega
    refine ⟨{ s with m_Index := ⟨s.m_BeginIndex.x0, s.m_BeginIndex.x1, s.m_Index.x2 + 1⟩,
                     rlLine := image.getLine s.m_BeginIndex.x1 (s.m_Index.x2 + 1),
                     realIndex := c.1, segmentRemainder := c.2 }, ?_, rfl, rfl, hc, rfl, rfl, ?_⟩
    · simp [ImageScanlineConstIterator.NextLine, ImageScanlineConstIterator.Increment, hw, he, hc]
    · simp [ImageScanlineConstIterator.IsAtEndOfRegion, he]
  · intro t ht
    by_cases hw : s.m_EndIndex.x1 ≤ s.m_Index.x1 + 1
    · by_cases he : s.m_EndIndex.x2 ≤ s.m_Index.x2 + 1
      · simp only [ImageScanlineConstIterator.NextLine, ImageScanlineConstIterator.Increment, hw,
          he, decide_True, if_true] at ht
        cases ht
        simp only [ImageScanlineConstIterator.IsAtEndOfRegion, decide_eq_true_eq]
        omega
      · obtain ⟨c, hc⟩ := hloc s.m_BeginIndex.x1 (s.m_Index.x2 + 1)
        simp only [ImageScanlineConstIterator.NextLine, ImageScanlineConstIterator.Increment, hw,
          he, decide_True, if_true, if_false, hc] at ht
        cases ht
        simp only [ImageScanlineConstIterator.IsAtEndOfRegion, decide_eq_true_eq]
        omega
    · have he : ¬ s.m_EndIndex.x2 ≤ s.m_Index.x2 := by omega
      obtain ⟨c, hc⟩ := hloc (s.m_Index.x1 + 1) s.m_Index.x2
      simp only [ImageScanlineConstIterator.NextLine, ImageScanlineConstIterator.Increment, hw,
        he, decide_False, Bool.false_eq_true, if_false, hc] at ht
      cases ht
      simp only [ImageScanlineConstIterator.IsAtEndOfRegion, decide_eq_true_eq]
      omega

/-- Witness of C9 on the image of scenario 5 (lines of length 4) with region
`[1, 4) x [0, 2) x [0, 2)`: from the end of line `(0, 0)` `NextLine` selects line `(1, 0)` at
offset 1 with cursor `locate(1) = (0, 3)`; from line `(1, 0)` it wraps to line `(0, 1)`. -/
theorem nextLine_raster_order_witness :
    ((∀ i1 i2, lineLength (imageScenario5.getLine i1 i2) = 4) ∧
      (scenario5Iterator 1 4 0 0 1 0).m_Index.x1 + 1 < (scenario5Iterator 1 4 0 0 1 0).m_EndIndex.x1) ∧
    (∃ t, (scenario5Iterator 1 4 0 0 1 0).NextLine imageScenario5 = some t ∧
        t.m_Index = ⟨1, 0 + 1, 0⟩ ∧
        t.rlLine = imageScenario5.getLine (0 + 1) 0 ∧
        locateCursor t.rlLine 1 = some (t.realIndex, t.segmentRemainder) ∧
        t.m_BeginIndex = ⟨1, 0, 0⟩ ∧ t.m_EndIndex = ⟨4, 2, 2⟩ ∧
        t.IsAtEndOfRegion = false) ∧
    (scenario5Iterator 1 4 0 0 1 0).NextLine imageScenario5
      = some (scenario5Iterator 1 1 1 0 0 3) ∧
    (scenario5Iterator 1 4 1 0 0 1).NextLine imageScenario5
      = some (scenario5Iterator 1 1 0 1 0 3) :=
  have hlen : ∀ i1 i2 : Int, lineLength (imageScenario5.getLine i1 i2) = 4 := by
    intro i1 i2
    simp only [imageScenario5]
    split <;> rfl
  ⟨⟨hlen, by decide⟩,
   (nextLine_raster_order imageScenario5 (scenario5Iterator 1 4 0 0 1 0) 4 hlen
     (by decide) (by decide) (by decide)).2.1 (by decide),
   by decide, by decide⟩

end itk

/-! ## Facts about `parse` -/

theorem parseTail_fst {D : Type} (inp : ParseInput D) (a : CommandLineRequest D) :
    (parseTail inp a).1 = 0 := rfl

theorem parseTail_fields {D : Type} (inp : ParseInput D) (a : CommandLineRequest D) :
    (parseTail inp a).2.fnMain = a.fnMain ∧ (parseTail inp a).2.fnOverlay = a.fnOverlay ∧
    (parseTail inp a).2.fnSegmentation = a.fnSegmentation ∧
    (parseTail inp a).2.fnLabelDesc = a.fnLabelDesc ∧
    (parseTail inp a).2.fnWorkspace = a.fnWorkspace := by
  simp only [parseTail]
  split_ifs <;> exact ⟨rfl, rfl, rfl, rfl, rfl⟩

theorem parse_fst {D : Type} (inp : ParseInput D) (a : CommandLineRequest D) :
    (parse inp a).1 =
      if !inp.tryParseOk then -1
      else if inp.parseResult.IsOptionPresent "--help" then 1
      else if inp.parseResult.IsOptionPresent "--workspace" then
        (if inp.parseResult.IsOptionPresent "--grey" || inp.parseResult.IsOptionPresent "--overlay"
            || inp.parseResult.IsOptionPresent "--labels"
            || inp.parseResult.IsOptionPresent "--segmentation" then -1 else 0)
      else if !(inp.parseResult.IsOptionPresent "--grey" || decide (inp.iTrailing < inp.argc))
          && inp.parseResult.IsOptionPresent "--segmentation" then -1
      else if !(inp.parseResult.IsOptionPresent "--grey" || decide (inp.iTrailing < inp.argc))
          && inp.parseResult.IsOptionPresent "--overlay" then -1
      else 0 := by
  simp only [parse, apply_ite Prod.fst, parseTail_fst]

/-- C10 (exit code of command-line parsing). Assuming the tokenizer accepts the command line:
`parse` returns 1 if `--help` is present. Otherwise it returns -1 if and only if `--workspace` is
present together with one of `--grey`, `--overlay`, `--labels`, `--segmentation`, or
`--workspace` is absent, no main image is given (neither `--grey` nor a trailing argument) and
`--segmentation` or `--overlay` is present; in every other case it returns 0. The return code
does not depend on `atof`, so a zoom factor `<= 0` is not an error. When `--workspace` is
accepted, `fnWorkspace` is its parameter while `fnMain`, `fnSegmentation`, `fnOverlay` and
`fnLabelDesc` are left as they were, that is empty for a default-constructed request. -/
theorem parse_exit_code {D : Type} (inp : ParseInput D) (argdata : CommandLineRequest D)
    (hok : inp.tryParseOk = true) :
    (inp.parseResult.IsOptionPresent "--help" = true → (parse inp argdata).1 = 1) ∧
    (inp.parseResult.IsOptionPresent "--help" = false →
      ((parse inp argdata).1 = -1 ↔
        (inp.parseResult.IsOptionPresent "--workspace" = true ∧
          (inp.parseResult.IsOptionPresent "--grey" = true ∨
           inp.parseResult.IsOptionPresent "--overlay" = true ∨
           inp.parseResult.IsOptionPresent "--labels" = true ∨
           inp.parseResult.IsOptionPresent "--segmentation" = true)) ∨
        (inp.parseResult.IsOptionPresent "--workspace" = false ∧
          inp.parseResult.IsOptionPresent "--grey" = false ∧ ¬ inp.iTrailing < inp.argc ∧
          (inp.parseResult.IsOptionPresent "--segmentation" = true ∨
           inp.parseResult.IsOptionPresent "--overlay" = true))) ∧
      ((parse inp argdata).1 ≠ -1 → (parse inp argdata).1 = 0)) ∧
    (∀ atof2 : String → D, (parse { inp with atof := atof2 } argdata).1 = (parse inp argdata).1) ∧
    (inp.parseResult.IsOptionPresent "--help" = false →
      inp.parseResult.IsOptionPresent "--workspace" = true →
      (parse inp argdata).1 ≠ -1 →
      (parse inp argdata).2.fnWorkspace = inp.parseResult.GetOptionParameter "--workspace" 0 ∧
      (parse inp argdata).2.fnMain = argdata.fnMain ∧
      (parse inp argdata).2.fnSegmentation = argdata.fnSegmentation ∧
      (parse inp argdata).2.fnOverlay = argdata.fnOverlay ∧
      (parse inp argdata).2.fnLabelDesc = argdata.fnLabelDesc) ∧
    (∀ zero : D, inp.parseResult.IsOptionPresent "--help" = false →
      inp.parseResult.IsOptionPresent "--workspace" = true →
      (parse inp (CommandLineRequest.default zero)).1 ≠ -1 →
      (parse inp (CommandLineRequest.default zero)).2.fnMain = "" ∧
      (parse inp (CommandLineRequest.default zero)).2.fnSegmentation = "" ∧
      (parse inp (CommandLineRequest.default zero)).2.fnOverlay = [] ∧
      (parse inp (CommandLineRequest.default zero)).2.fnLabelDesc = "") := by
  have hfields : ∀ a : CommandLineRequest D,
      inp.parseResult.IsOptionPresent "--help" = false →
      inp.parseResult.IsOptionPresent "--workspace" = true →
      (parse inp a).1 ≠ -1 →
      (parse inp a).2.fnWorkspace = inp.parseResult.GetOptionParameter "--workspace" 0 ∧
      (parse inp a).2.fnMain = a.fnMain ∧
      (parse inp a).2.fnSegmentation = a.fnSegmentation ∧
      (parse inp a).2.fnOverlay = a.fnOverlay ∧
      (parse inp a).2.fnLabelDesc = a.fnLabelDesc := by
    intro a hh hw hne
    have hinc : (inp.parseResult.IsOptionPresent "--grey" ||
        inp.parseResult.IsOptionPresent "--overlay" ||
        inp.parseResult.IsOptionPresent "--labels" ||
        inp.parseResult.IsOptionPresent "--segmentation") = false := by
      cases hc : (inp.parseResult.IsOptionPresent "--grey" ||
        inp.parseResult.IsOptionPresent "--overlay" ||
        inp.parseResult.IsOptionPresent "--labels" ||
        inp.parseResult.IsOptionPresent "--segmentation") with
      | false => rfl
      | true =>
        exfalso
        apply hne
        simp only [parse, hok, hh, hw, hc]
        rfl
    have hp : parse inp a = parseTail inp
        { (if inp.parseResult.IsOptionPresent "--debug-events" && inp.debugEventsCompiled then
            { a with flagDebugEvents := true } else a) with
          fnWorkspace := inp.parseResult.GetOptionParameter "--workspace" 0 } := by
      simp only [parse, hok, hh, hw, hinc]
      rfl
    obtain ⟨h1, h2, h3, h4, h5⟩ := parseTail_fields inp
      { (if inp.parseResult.IsOptionPresent "--debug-events" && inp.debugEventsCompiled then
            { a with flagDebugEvents := true } else a) with
          fnWorkspace := inp.parseResult.GetOptionParameter "--workspace" 0 }
    rw [hp, h1, h2, h3, h4, h5]
    split_ifs <;> exact ⟨rfl, rfl, rfl, rfl, rfl⟩
  refine ⟨?_, ?_, ?_, hfields argdata, ?_⟩
  · intro hh
    rw [parse_fst]
    simp [hok, hh]
  · intro hh
    rw [parse_fst]
    simp only [hok, hh]
    cases hw : inp.parseResult.IsOptionPresent "--workspace" <;>
    cases hg : inp.parseResult.IsOptionPresent "--grey" <;>
    cases ho : inp.parseResult.IsOptionPresent "--overlay" <;>
    cases hl : inp.parseResult.IsOptionPresent "--labels" <;>
    cases hs : inp.parseResult.IsOptionPresent "--segmentation" <;>
    by_cases ht : inp.iTrailing < inp.argc <;>
    simp [ht]
  · intro atof2
    rw [parse_fst, parse_fst]
  · intro zero hh hw hne
    obtain ⟨-, h1, h2, h3, h4⟩ := hfields (CommandLineRequest.default zero) hh hw hne
    exact ⟨h1, h2, h3, h4⟩

/-- Witness of C10: `snap -w ws.itksnap` is accepted with return code 0 and `fnWorkspace` set,
`snap -w ws.itksnap -g ws.itksnap` and `snap -s x` (no main image) return -1, and
`snap -z x -l x` with a zoom factor of 0 returns 0. -/
theorem parse_exit_code_witness :
    (parseInputOf ["--workspace"] "ws.itksnap").tryParseOk = true ∧
    ((parse (parseInputOf ["--workspace"] "ws.itksnap") (CommandLineRequest.default 0)).1 ≠ -1 →
      (parse (parseInputOf ["--workspace"] "ws.itksnap") (CommandLineRequest.default 0)).1 = 0) ∧
    parse (parseInputOf ["--workspace"] "ws.itksnap") (CommandLineRequest.default 0) =
      (0, { CommandLineRequest.default 0 with fnWorkspace := "ws.itksnap" }) ∧
    (parse (parseInputOf ["--workspace", "--grey"] "ws.itksnap")
      (CommandLineRequest.default 0)).1 = -1 ∧
    (parse (parseInputOf ["--segmentation"] "x") (CommandLineRequest.default 0)).1 = -1 ∧
    (parse (parseInputOf ["--zoom", "--labels"] "x") (CommandLineRequest.default 0)).1 = 0 ∧
    (parse (parseInputOf ["--help", "--workspace", "--grey"] "x")
      (CommandLineRequest.default 0)).1 = 1 :=
  ⟨rfl,
   ((parse_exit_code (parseInputOf ["--workspace"] "ws.itksnap") (CommandLineRequest.default 0)
     rfl).2.1 (by decide)).2,
   by decide, by decide, by decide, by decide, by decide⟩

namespace itk

/-! ## Claims on the end of the line and on backward motion -/

theorem operatorDec_at_end_sentinel {α : Type} (s : ImageScanlineConstIterator α)
    (hv : ValidLine s.rlLine) (hne : s.rlLine ≠ [])
    (hri : s.realIndex = (s.rlLine.length : Int) - 1) (hsr : s.segmentRemainder = 0) :
    ∃ t, s.operatorDec = some t ∧
      t = { s with m_Index := { s.m_Index with x0 := s.m_Index.x0 - 1 }, segmentRemainder := 1 } ∧
      Interior t ∧ cursorOffset t = (lineLength s.rlLine : Int) - 1 := by
  have hlen : 0 < s.rlLine.length := List.length_pos.2 hne
  have htn : s.realIndex.toNat = s.rlLine.length - 1 := by omega
  obtain ⟨r, hget⟩ : ∃ r, s.rlLine.get? s.realIndex.toNat = some r :=
    ⟨_, List.get?_eq_get (by omega)⟩
  have hrun : runAt s.rlLine s.realIndex = some r := (runAt_iff _ _ _).2 ⟨by omega, hget⟩
  have hpos := hv r (runAt_mem _ _ _ hrun)
  have hc : s.segmentRemainder + 1 ≤ (r.1 : Int) := by omega
  have hstep : s.operatorDec = some { s with
      m_Index := { s.m_Index with x0 := s.m_Index.x0 - 1 },
      segmentRemainder := s.segmentRemainder + 1 } := by
    simp only [ImageScanlineConstIterator.operatorDec, hrun, hc, if_true]
  have hcb := countsBefore_of_length_le s.rlLine (s.realIndex.toNat + 1) (by omega)
  refine ⟨_, hstep, by simp only [hsr, zero_add], ⟨r, hrun, ?_, ?_⟩, ?_⟩
  · simp only; omega
  · simp only; omega
  · simp only [cursorOffset, hcb]; omega

/-- C11 (the condition `operator--` asserts). The debug assertion at the head of `operator--` is
`!IsAtEndOfLine()`: it holds exactly when `m_Index[0] != m_EndIndex[0]`. For a region with
`b0 < e0` it therefore fails at the one-past-the-end position `m_Index[0] = e0`, although
`m_Index[0] > b0` there, and it holds at begin-of-line `m_Index[0] = b0`. -/
theorem decrement_assertion_iff {α : Type} (s : ImageScanlineConstIterator α)
    (hbe : s.m_BeginIndex.x0 < s.m_EndIndex.x0) :
    (s.decrementAssertion = true ↔ s.m_Index.x0 ≠ s.m_EndIndex.x0) ∧
    (s.m_Index.x0 = s.m_EndIndex.x0 →
      s.m_BeginIndex.x0 < s.m_Index.x0 ∧ s.decrementAssertion = false) ∧
    (s.m_Index.x0 = s.m_BeginIndex.x0 → s.decrementAssertion = true) := by
  have key : s.decrementAssertion = true ↔ s.m_Index.x0 ≠ s.m_EndIndex.x0 := by
    simp [ImageScanlineConstIterator.decrementAssertion,
      ImageScanlineConstIterator.IsAtEndOfLine]
  refine ⟨key, ?_, ?_⟩
  · intro h
    refine ⟨by omega, ?_⟩
    cases hd : s.decrementAssertion with
    | false => rfl
    | true => exact absurd h (key.1 hd)
  · intro h
    exact key.2 (by omega)

/-- Witness of C11 on the line `[(3,A),(2,B)]` with axis-0 region `[0, 5)`: in the state
`GoToEndOfLine` produces (`m_Index[0] = 5 > 0`) the assertion of `operator--` is false, and at
begin-of-line (`m_Index[0] = 0`) it is true. -/
theorem decrement_assertion_iff_witness :
    (lineIterator lineAAABB 0 5 2 0 1).GoToEndOfLine = lineIterator lineAAABB 0 5 5 1 0 ∧
    ((lineIterator lineAAABB 0 5 5 1 0).m_BeginIndex.x0 < (lineIterator lineAAABB 0 5 5 1 0).m_Index.x0
      ∧ (lineIterator lineAAABB 0 5 5 1 0).decrementAssertion = false) ∧
    (lineIterator lineAAABB 0 5 0 0 3).decrementAssertion = true :=
  ⟨by decide,
   (decrement_assertion_iff (lineIterator lineAAABB 0 5 5 1 0) (by decide)).2.1 rfl,
   by decide⟩

/-- C13 (bounds of the run lookup of `operator++`). Valid line of length `L`, region end
`e0 ≤ L`, an interior state whose run cursor stands on the voxel `m_Index[0]`, inside the region
and not at end-of-line. If the voxel stepped onto is inside the line (`m_Index[0] + 1 < L`),
`operator++` returns, and whenever the step exhausts the current run the run `realIndex + 1`
exists. If the iterator stands on the last voxel of the line (`m_Index[0] + 1 = L`, possible
only for `e0 = L`), the step exhausts the last run, `rlLine[realIndex + 1]` does not exist and
`operator++` has no defined result, although `IsAtEndOfLine` is false. -/
theorem increment_lookup_bounds {α : Type} (s : ImageScanlineConstIterator α) (e0 : Nat)
    (hv : ValidLine s.rlLine) (hel : e0 ≤ lineLength s.rlLine)
    (hend : s.m_EndIndex.x0 = (e0 : Int)) (hi : Interior s)
    (hpos : cursorOffset s = s.m_Index.x0) (hle : s.m_Index.x0 ≤ (e0 : Int))
    (hnotEnd : s.IsAtEndOfLine = false) :
    (s.m_Index.x0 + 1 < (lineLength s.rlLine : Int) →
      (∃ t, s.operatorInc = some t) ∧
      (s.segmentRemainder = 1 → ∃ r, runAt s.rlLine (s.realIndex + 1) = some r)) ∧
    (s.m_Index.x0 + 1 = (lineLength s.rlLine : Int) →
      (e0 : Int) = (lineLength s.rlLine : Int) ∧ s.segmentRemainder = 1 ∧
      s.realIndex + 1 = (s.rlLine.length : Int) ∧
      runAt s.rlLine (s.realIndex + 1) = none ∧ s.operatorInc = none) := by
  have hne : s.m_Index.x0 ≠ (e0 : Int) := by
    simpa [ImageScanlineConstIterator.IsAtEndOfLine, hend] using hnotEnd
  constructor
  · intro hlt
    obtain ⟨t, ht, -⟩ := operatorInc_interior s hv hi (by rw [hpos]; exact hlt)
    refine ⟨⟨t, ht⟩, ?_⟩
    intro hsr
    cases hrun : runAt s.rlLine (s.realIndex + 1) with
    | some r => exact ⟨r, rfl⟩
    | none =>
      exfalso
      have hnot : ¬ (s.segmentRemainder - 1 > 0) := by omega
      simp only [ImageScanlineConstIterator.operatorInc, hnot, if_false, hrun] at ht
      cases ht
  · intro hlast
    obtain ⟨h1, h2, h3, h4⟩ := operatorInc_last_voxel s hv hi (by rw [hpos]; exact hlast)
    exact ⟨by omega, h1, h2, h3, h4⟩

/-- Witness of C13 on the full line `[(3,A),(2,B)]` (region `[0, 5)`, `e0 = L = 5`): at the last
voxel, offset 4 with cursor `(1, 1)`, `IsAtEndOfLine` is false, the step exhausts the run, and
`rlLine[2]` does not exist. -/
theorem increment_lookup_bounds_witness :
    (ValidLine lineAAABB ∧ Interior (lineIterator lineAAABB 0 5 4 1 1) ∧
      (lineIterator lineAAABB 0 5 4 1 1).IsAtEndOfLine = false) ∧
    (((5 : Nat) : Int) = (lineLength lineAAABB : Int) ∧
      (lineIterator lineAAABB 0 5 4 1 1).segmentRemainder = 1 ∧
      (lineIterator lineAAABB 0 5 4 1 1).realIndex + 1 = (lineAAABB.length : Int) ∧
      runAt lineAAABB ((lineIterator lineAAABB 0 5 4 1 1).realIndex + 1) = none ∧
      (lineIterator lineAAABB 0 5 4 1 1).operatorInc = none) :=
  ⟨⟨by decide, ⟨(2, 'B'), by decide, by decide, by decide⟩, by decide⟩,
   (increment_lookup_bounds (lineIterator lineAAABB 0 5 4 1 1) 5 (by decide) (by decide) rfl
     ⟨(2, 'B'), by decide, by decide, by decide⟩ (by decide) (by decide) (by decide)).2
     (by decide)⟩

/-- C14 (the backward walk tracks `locate`). On a valid line of length `L`, for an offset `k`
with `0 < k < L`, `operator--` applied to the state with `m_Index[0] = k` and run cursor
`locate(k)` returns a state with `m_Index[0] = k - 1` and run cursor `locate(k - 1)`. With `r`
the run `k` lies in, it moves to the previous run exactly when `segmentRemainder` equals the
count of `r`, that is when `k` is the first voxel of its run, and keeps `realIndex` otherwise. -/
theorem backward_walk_locate {α : Type} (s : ImageScanlineConstIterator α) (k : Nat)
    (hv : ValidLine s.rlLine) (hk0 : 0 < k) (_hkL : k < lineLength s.rlLine)
    (hidx : s.m_Index.x0 = (k : Int))
    (hcur : locateCursor s.rlLine k = some (s.realIndex, s.segmentRemainder)) :
    ∃ t r, s.operatorDec = some t ∧ runAt s.rlLine s.realIndex = some r ∧
      t.m_Index.x0 = (k : Int) - 1 ∧
      locateCursor s.rlLine (k - 1) = some (t.realIndex, t.segmentRemainder) ∧
      (t.realIndex = s.realIndex - 1 ↔ s.segmentRemainder = (r.1 : Int)) ∧
      (t.realIndex = s.realIndex ↔ s.segmentRemainder ≠ (r.1 : Int)) := by
  obtain ⟨hi, ho⟩ := (interior_iff_locateCursor s k).2 hcur
  obtain ⟨t, ht, hit, hot, hxt, -, -, hlt⟩ := operatorDec_interior s hv hi (by rw [ho]; omega)
  obtain ⟨r, hrun, h1, h2⟩ := hi
  have hloc : locateCursor s.rlLine (k - 1) = some (t.realIndex, t.segmentRemainder) := by
    have := (interior_iff_locateCursor t (k - 1)).1 ⟨hit, by rw [hot, ho]; omega⟩
    rwa [hlt] at this
  have hx0 : t.m_Index.x0 = (k : Int) - 1 := by rw [hxt]; simp only [hidx]
  refine ⟨t, r, ht, hrun, hx0, hloc, ?_⟩
  by_cases hsr : s.segmentRemainder + 1 ≤ (r.1 : Int)
  · have hstep : s.operatorDec = some { s with
        m_Index := { s.m_Index with x0 := s.m_Index.x0 - 1 },
        segmentRemainder := s.segmentRemainder + 1 } := by
      simp only [ImageScanlineConstIterator.operatorDec, hrun, hsr, if_true]
    rw [hstep] at ht
    cases ht
    simp only
    constructor <;> constructor <;> intro h <;> first | omega | trivial
  · have hstep : s.operatorDec = some { s with
        m_Index := { s.m_Index with x0 := s.m_Index.x0 - 1 },
        realIndex := s.realIndex - 1,
        segmentRemainder := 1 } := by
      simp only [ImageScanlineConstIterator.operatorDec, hrun, hsr, if_false]
    rw [hstep] at ht
    cases ht
    simp only
    constructor <;> constructor <;> intro h <;> first | omega | trivial

/-- Witness of C14 on the line `[(3,A),(2,B)]`: the theorem at offset 3, the first voxel of the
second run, and the trace of the run cursor over four successive decrements from offset 4 with
cursor `(1, 1)`: `(1, 2)`, `(0, 1)`, `(0, 2)`, `(0, 3)`. -/
theorem backward_walk_locate_witness :
    (ValidLine lineAAABB ∧ locateCursor lineAAABB 3 = some (1, 2)) ∧
    (∃ t r, (lineIterator lineAAABB 0 5 3 1 2).operatorDec = some t ∧
      runAt lineAAABB 1 = some r ∧
      t.m_Index.x0 = ((3 : Nat) : Int) - 1 ∧
      locateCursor lineAAABB (3 - 1) = some (t.realIndex, t.segmentRemainder) ∧
      (t.realIndex = 1 - 1 ↔ (2 : Int) = (r.1 : Int)) ∧
      (t.realIndex = 1 ↔ (2 : Int) ≠ (r.1 : Int))) ∧
    (List.range 5).map (fun n =>
        ((lineIterator lineAAABB 0 5 4 1 1).operatorDecN n).map
          (fun t => (t.m_Index.x0, t.realIndex, t.segmentRemainder))) =
      [some (4, 1, 1), some (3, 1, 2), some (2, 0, 1), some (1, 0, 2), some (0, 0, 3)] ∧
    (List.range 5).map (fun n => locateCursor lineAAABB (4 - n)) =
      [some (1, 1), some (1, 2), some (0, 1), some (0, 2), some (0, 3)] :=
  ⟨⟨by decide, by decide⟩,
   backward_walk_locate (lineIterator lineAAABB 0 5 3 1 2) 3 (by decide) (by decide) (by decide)
     rfl (by decide),
   by decide, by decide⟩

/-- C15 (reverse entry from the end sentinel). Valid line of length `L`, region `[b0, e0)` with
`b0 < e0 ≤ L`. `GoToEndOfLine` followed by one `operator--` (assertions ignored) returns a state
with `m_Index[0] = e0 - 1`, `realIndex` the last run of the line and `segmentRemainder = 1`,
which is the run cursor of the last voxel of the line, offset `L - 1`. This is `locate(e0 - 1)`
if and only if `e0 = L`; for a region ending inside the line (`e0 < L`) it is not. -/
theorem reverse_entry_locate_iff {α : Type} (s : ImageScanlineConstIterator α) (b0 e0 : Nat)
    (hv : ValidLine s.rlLine) (hbe : b0 < e0) (hel : e0 ≤ lineLength s.rlLine)
    (hend : s.m_EndIndex.x0 = (e0 : Int)) :
    ∃ t, s.GoToEndOfLine.operatorDec = some t ∧
      t.m_Index.x0 = (e0 : Int) - 1 ∧
      t.realIndex = (s.rlLine.length : Int) - 1 ∧ t.segmentRemainder = 1 ∧
      cursorOffset t = (lineLength s.rlLine : Int) - 1 ∧
      (locateCursor s.rlLine (e0 - 1) = some (t.realIndex, t.segmentRemainder) ↔
        e0 = lineLength s.rlLine) := by
  have hne : s.rlLine ≠ [] := by
    intro h
    rw [h] at hel
    simp [lineLength] at hel
    omega
  obtain ⟨t, ht, hteq, hit, hot⟩ :=
    operatorDec_at_end_sentinel s.GoToEndOfLine hv hne rfl rfl
  have hline : t.rlLine = s.rlLine := by rw [hteq]; rfl
  have hoff : cursorOffset t = (lineLength s.rlLine : Int) - 1 := hot
  refine ⟨t, ht, by rw [hteq]; simp [ImageScanlineConstIterator.GoToEndOfLine, hend],
    by rw [hteq]; rfl, by rw [hteq], hoff, ?_⟩
  have key := (interior_iff_locateCursor t (e0 - 1)).symm.trans (and_iff_right hit)
  rw [hline] at key
  rw [key, hoff]
  omega

/-- Witness of C15 on the line `[(3,A),(2,B)]` with axis-0 region `[0, 2)`: `GoToEndOfLine` then
`operator--` leaves `m_Index[0] = 1` with run cursor `(1, 1)` and dereferences `B`, whereas
`locate(1) = (0, 2)` and the voxel at offset 1 is `A`. -/
theorem reverse_entry_locate_iff_witness :
    (ValidLine lineAAABB ∧ (2 : Nat) ≤ lineLength lineAAABB) ∧
    (∃ t, (lineIterator lineAAABB 0 2 0 0 3).GoToEndOfLine.operatorDec = some t ∧
      t.m_Index.x0 = ((2 : Nat) : Int) - 1 ∧
      t.realIndex = (lineAAABB.length : Int) - 1 ∧ t.segmentRemainder = 1 ∧
      cursorOffset t = (lineLength lineAAABB : Int) - 1 ∧
      (locateCursor lineAAABB (2 - 1) = some (t.realIndex, t.segmentRemainder) ↔
        2 = lineLength lineAAABB)) ∧
    (lineIterator lineAAABB 0 2 0 0 3).GoToEndOfLine.operatorDec
      = some (lineIterator lineAAABB 0 2 1 1 1) ∧
    (lineIterator lineAAABB 0 2 1 1 1).Get = some 'B' ∧
    locateCursor lineAAABB 1 = some (0, 2) ∧
    (decompress lineAAABB).get? 1 = some 'A' :=
  ⟨⟨by decide, by decide⟩,
   reverse_entry_locate_iff (lineIterator lineAAABB 0 2 0 0 3) 0 2 (by decide) (by decide)
     (by decide) rfl,
   by decide, by decide, by decide, by decide⟩

/-- C12 (the remainder at end-of-line, as amended). Valid line of length `L`, region `[b0, e0)`
with `b0 < e0 ≤ L`, iterator `s0` at begin-of-line with run cursor `locate(b0)`, and the states
reachable from it by legal `operator++`, `operator--` and `GoToEndOfLine` calls.
`GoToEndOfLine` reaches end-of-line with `segmentRemainder = 0`. If the region ends inside the
line (`e0 < L`), `operator++` reaches end-of-line with the run cursor `locate(e0)`, whose
`segmentRemainder` is at least 1, not 0. Every reachable state at end-of-line has either the run
cursor of `GoToEndOfLine` (last run, `segmentRemainder = 0`) or, with `e0 < L`, the run cursor
`locate(e0)` with `segmentRemainder` at least 1. In particular, if the region ends with the line
(`e0 = L`), every reachable state at end-of-line has `segmentRemainder = 0`. -/
theorem end_of_line_remainder {α : Type} (s0 : ImageScanlineConstIterator α) (b0 e0 : Nat)
    (hv : ValidLine s0.rlLine) (hbe : b0 < e0) (hel : e0 ≤ lineLength s0.rlLine)
    (hidx : s0.m_Index.x0 = (b0 : Int)) (hbeg : s0.m_BeginIndex.x0 = (b0 : Int))
    (hend : s0.m_EndIndex.x0 = (e0 : Int))
    (hcur : locateCursor s0.rlLine b0 = some (s0.realIndex, s0.segmentRemainder)) :
    (LegalReachable s0 s0.GoToEndOfLine ∧ s0.GoToEndOfLine.IsAtEndOfLine = true ∧
      s0.GoToEndOfLine.segmentRemainder = 0) ∧
    (e0 < lineLength s0.rlLine →
      ∃ t, LegalReachable s0 t ∧ t.IsAtEndOfLine = true ∧ 1 ≤ t.segmentRemainder ∧
        locateCursor s0.rlLine e0 = some (t.realIndex, t.segmentRemainder)) ∧
    (∀ t, LegalReachable s0 t → t.IsAtEndOfLine = true →
      (t.realIndex = (s0.rlLine.length : Int) - 1 ∧ t.segmentRemainder = 0) ∨
      (e0 < lineLength s0.rlLine ∧ 1 ≤ t.segmentRemainder ∧
        locateCursor s0.rlLine e0 = some (t.realIndex, t.segmentRemainder))) ∧
    (e0 = lineLength s0.rlLine →
      ∀ t, LegalReachable s0 t → t.IsAtEndOfLine = true → t.segmentRemainder = 0) := by
  obtain ⟨hi0, ho0⟩ := (interior_iff_locateCursor s0 b0).2 hcur
  have hne : s0.rlLine ≠ [] := by
    intro h
    rw [h] at hel
    simp [lineLength] at hel
    omega
  have hall : ∀ t, LegalReachable s0 t → t.IsAtEndOfLine = true →
      (t.realIndex = (s0.rlLine.length : Int) - 1 ∧ t.segmentRemainder = 0) ∨
      (e0 < lineLength s0.rlLine ∧ 1 ≤ t.segmentRemainder ∧
        locateCursor s0.rlLine e0 = some (t.realIndex, t.segmentRemainder)) := by
    intro t hr
    have inv : t.rlLine = s0.rlLine ∧ t.m_BeginIndex.x0 = (b0 : Int) ∧
        t.m_EndIndex.x0 = (e0 : Int) ∧
        ((Interior t ∧
            (cursorOffset t = t.m_Index.x0 ∨
              cursorOffset t = t.m_Index.x0 + ((lineLength s0.rlLine : Int) - (e0 : Int))) ∧
            (b0 : Int) ≤ t.m_Index.x0 ∧ t.m_Index.x0 ≤ (e0 : Int)) ∨
          (t.m_Index.x0 = (e0 : Int) ∧ t.realIndex = (t.rlLine.length : Int) - 1 ∧
            t.segmentRemainder = 0)) := by
      induction hr with
      | start =>
        exact ⟨rfl, hbeg, hend, Or.inl ⟨hi0, Or.inl (by rw [ho0, hidx]), by omega, by omega⟩⟩
      | @incr s u _ hnotEnd hstep ih =>
        obtain ⟨hl, hb, he, hcase⟩ := ih
        have hnx : s.m_Index.x0 ≠ (e0 : Int) := by
          simpa [ImageScanlineConstIterator.IsAtEndOfLine, he] using hnotEnd
        rcases hcase with ⟨hi, ho, hge, hle⟩ | ⟨hx, -, -⟩
        · by_cases hin : cursorOffset s + 1 < (lineLength s.rlLine : Int)
          · obtain ⟨u2, hu2, hiu, hou, hxu, hbu, heu, hlu⟩ :=
              operatorInc_interior s (hl ▸ hv) hi hin
            rw [hu2] at hstep
            cases hstep
            have hxu0 : u.m_Index.x0 = s.m_Index.x0 + 1 := by rw [hxu]
            refine ⟨hlu.trans hl, by rw [hbu]; exact hb, by rw [heu]; exact he,
              Or.inl ⟨hiu, ?_, by omega, by omega⟩⟩
            rcases ho with ho | ho
            · exact Or.inl (by rw [hou, ho, hxu0])
            · exact Or.inr (by rw [hou, ho, hxu0]; omega)
          · exfalso
            have hub : cursorOffset s + 1 ≤ (lineLength s.rlLine : Int) := by
              obtain ⟨r, -, h1, -⟩ := hi
              have := countsBefore_le_lineLength s.rlLine (s.realIndex.toNat + 1)
              simp only [cursorOffset]
              omega
            have hnone := (operatorInc_last_voxel s (hl ▸ hv) hi (by omega)).2.2.2
            rw [hnone] at hstep
            cases hstep
        · exact absurd hx hnx
      | @decr s u _ hnotBegin hstep ih =>
        obtain ⟨hl, hb, he, hcase⟩ := ih
        rcases hcase with ⟨hi, ho, hge, hle⟩ | ⟨hx, hri, hsr⟩
        · obtain ⟨u2, hu2, hiu, hou, hxu, hbu, heu, hlu⟩ :=
            operatorDec_interior s (hl ▸ hv) hi (by rcases ho with ho | ho <;> omega)
          rw [hu2] at hstep
          cases hstep
          have hxu0 : u.m_Index.x0 = s.m_Index.x0 - 1 := by rw [hxu]
          refine ⟨hlu.trans hl, by rw [hbu]; exact hb, by rw [heu]; exact he,
            Or.inl ⟨hiu, ?_, by omega, by omega⟩⟩
          rcases ho with ho | ho
          · exact Or.inl (by rw [hou, ho, hxu0])
          · exact Or.inr (by rw [hou, ho, hxu0]; omega)
        · obtain ⟨u2, hu2, hueq, hiu, hou⟩ :=
            operatorDec_at_end_sentinel s (hl ▸ hv) (hl ▸ hne) hri hsr
          rw [hu2] at hstep
          cases hstep
          have hxu : u.m_Index.x0 = s.m_Index.x0 - 1 := by rw [hueq]
          have hlu : u.rlLine = s.rlLine := by rw [hueq]
          have hbu : u.m_BeginIndex = s.m_BeginIndex := by rw [hueq]
          have heu : u.m_EndIndex = s.m_EndIndex := by rw [hueq]
          refine ⟨hlu.trans hl, by rw [hbu]; exact hb, by rw [heu]; exact he,
            Or.inl ⟨hiu, Or.inr ?_, by omega, by omega⟩⟩
          rw [hou, hxu, hx, hl]
          omega
      | @toEnd s _ ih =>
        obtain ⟨hl, hb, he, -⟩ := ih
        exact ⟨hl, hb, he, Or.inr ⟨he, rfl, rfl⟩⟩
    obtain ⟨hl, -, he, hcase⟩ := inv
    intro hAtEnd
    have hx : t.m_Index.x0 = (e0 : Int) := by
      simpa [ImageScanlineConstIterator.IsAtEndOfLine, he] using hAtEnd
    rcases hcase with ⟨hi, ho, -, -⟩ | ⟨-, hri, hsr⟩
    · have hub : cursorOffset t + 1 ≤ (lineLength s0.rlLine : Int) := by
        obtain ⟨r, -, h1, -⟩ := hi
        have := countsBefore_le_lineLength t.rlLine (t.realIndex.toNat + 1)
        rw [hl] at this
        simp only [cursorOffset, hl]
        omega
      have ho2 : cursorOffset t = (e0 : Int) := by
        rcases ho with ho | ho <;> omega
      have hloc := (interior_iff_locateCursor t e0).1 ⟨hi, ho2⟩
      rw [hl] at hloc
      obtain ⟨r, -, h1, -⟩ := hi
      exact Or.inr ⟨by omega, h1, hloc⟩
    · rw [hl] at hri
      exact Or.inl ⟨hri, hsr⟩
  refine ⟨⟨LegalReachable.toEnd LegalReachable.start, ?_, rfl⟩, ?_, hall, ?_⟩
  · simp [ImageScanlineConstIterator.GoToEndOfLine, ImageScanlineConstIterator.IsAtEndOfLine]
  · intro hlt
    have walk : ∀ k : Nat, k ≤ e0 - b0 →
        ∃ t, LegalReachable s0 t ∧ Interior t ∧ cursorOffset t = ((b0 + k : Nat) : Int) ∧
          t.m_Index.x0 = ((b0 + k : Nat) : Int) ∧ t.m_EndIndex = s0.m_EndIndex ∧
          t.rlLine = s0.rlLine := by
      intro k
      induction k with
      | zero =>
        intro _
        exact ⟨s0, LegalReachable.start, hi0, by simpa using ho0, by simpa using hidx, rfl, rfl⟩
      | succ n ih =>
        intro hk
        obtain ⟨t, hr, hit, hot, hxt, het, hlt2⟩ := ih (by omega)
        have hnotEnd : t.IsAtEndOfLine = false := by
          simp only [ImageScanlineConstIterator.IsAtEndOfLine, het, hend, hxt,
            decide_eq_false_iff_not]
          omega
        obtain ⟨u, hu, hiu, hou, hxu, -, heu, hlu⟩ :=
          operatorInc_interior t (hlt2 ▸ hv) hit (by rw [hot, hlt2]; omega)
        refine ⟨u, LegalReachable.incr hr hnotEnd hu, hiu, by rw [hou, hot]; push_cast; omega, ?_,
          heu.trans het, hlu.trans hlt2⟩
        rw [hxu]
        simp only [hxt]
        push_cast
        omega
    obtain ⟨t, hr, hit, hot, hxt, het, hlt2⟩ := walk (e0 - b0) (le_refl _)
    have hsum : b0 + (e0 - b0) = e0 := by omega
    rw [hsum] at hot hxt
    have hloc := (interior_iff_locateCursor t e0).1 ⟨hit, hot⟩
    rw [hlt2] at hloc
    obtain ⟨r, -, h1, -⟩ := hit
    refine ⟨t, hr, ?_, h1, hloc⟩
    simp [ImageScanlineConstIterator.IsAtEndOfLine, het, hend, hxt]
  · intro heq t hr hAtEnd
    rcases hall t hr hAtEnd with ⟨-, hsr⟩ | ⟨hlt, -, -⟩
    · exact hsr
    · omega

/-- Witness of C12 on region `[1, 3)` of the line `[(2,A),(2,B)]` (`e0 = 3 < L = 4`): from
begin-of-line, offset 1 with cursor `locate(1) = (0, 1)`, a legal sweep reaches end-of-line with
the run cursor `locate(3) = (1, 1)`, whereas `GoToEndOfLine` gives `segmentRemainder = 0` at the
same position. -/
theorem end_of_line_remainder_witness :
    (ValidLine lineAABB ∧ locateCursor lineAABB 1 = some (0, 1)) ∧
    (∃ t, LegalReachable (lineIterator lineAABB 1 3 1 0 1) t ∧ t.IsAtEndOfLine = true ∧
      1 ≤ t.segmentRemainder ∧
      locateCursor lineAABB 3 = some (t.realIndex, t.segmentRemainder)) ∧
    locateCursor lineAABB 3 = some (1, 1) ∧
    (lineIterator lineAABB 1 3 1 0 1).GoToEndOfLine = lineIterator lineAABB 1 3 3 1 0 :=
  ⟨⟨by decide, by decide⟩,
   (end_of_line_remainder (lineIterator lineAABB 1 3 1 0 1) 1 3 (by decide) (by decide)
     (by decide) rfl rfl rfl (by decide)).2.1 (by decide),
   by decide, by decide⟩

/-- Counterexample to C12 as stated, on region `[1, 3)` of the valid line `[(2,A),(2,B)]`
(`e0 = 3 ≤ L = 4`): from begin-of-line, `m_Index[0] = 1` with run cursor `locate(1) = (0, 1)`,
two legal `operator++` calls give `(2, 1, 2)` and then `(3, 1, 1)`, a reachable state at
end-of-line whose `segmentRemainder` is 1. So it is not the case that every reachable state at
end-of-line has `segmentRemainder = 0`. -/
theorem end_of_line_remainder_counterexample :
    (ValidLine lineAABB ∧ (3 : Nat) ≤ lineLength lineAABB ∧
      locateCursor lineAABB 1 = some (0, 1)) ∧
    (LegalReachable (lineIterator lineAABB 1 3 1 0 1) (lineIterator lineAABB 1 3 3 1 1) ∧
      (lineIterator lineAABB 1 3 3 1 1).IsAtEndOfLine = true ∧
      (lineIterator lineAABB 1 3 3 1 1).segmentRemainder = 1) ∧
    ¬ ∀ t, LegalReachable (lineIterator lineAABB 1 3 1 0 1) t → t.IsAtEndOfLine = true →
        t.segmentRemainder = 0 := by
  have hreach : LegalReachable (lineIterator lineAABB 1 3 1 0 1)
      (lineIterator lineAABB 1 3 3 1 1) :=
    LegalReachable.incr
      (LegalReachable.incr LegalReachable.start (by decide)
        (show (lineIterator lineAABB 1 3 1 0 1).operatorInc
          = some (lineIterator lineAABB 1 3 2 1 2) by decide))
      (by decide)
      (show (lineIterator lineAABB 1 3 2 1 2).operatorInc
        = some (lineIterator lineAABB 1 3 3 1 1) by decide)
  refine ⟨⟨by decide, by decide, by decide⟩, ⟨hreach, by decide, by decide⟩, ?_⟩
  intro hall
  have h := hall _ hreach (by decide)
  exact absurd h (by decide)

end itk
